import Mathlib

/-!
Verification of the in-memory file-system simulator (`FileSystemNode.py`).

The Python program manipulates a heap of mutable `FileSystemNode` objects
linked by `parent`, `child` (first child) and `next` (next sibling)
references.  We embed that heap as an arena: a list of node records indexed
by stable natural-number identities.  Object identity in Python becomes the
arena index; `None` references become `Option.none`.  The root object is
always index `0` and removal never shrinks the arena (Python's
`remove_subtree` only recurses for the garbage collector and writes no
field), so unlinked nodes simply become unreachable, exactly as in the
source.  Traversals of the sibling linked list (`find_child`, the unlink
loops, `deep_copy`) are written with an explicit fuel parameter; the fuel
supplied at call sites dominates the length of every well-formed chain, and
on the cyclic heaps the Python program would not terminate on, the fueled
functions simply stop (no claim depends on behaviour there).
-/

/-- Python strings, embedded character by character. -/
abbrev Str := List Char

/-- Build an embedded string from a Lean string literal. -/
def str (s : String) : Str := s.data

/-- One `FileSystemNode` object: `name`, `is_file`, and the three
references `parent`, `child`, `next` (arena indices).  `content` is
`some lines` exactly when Python stores a list (files); directories carry
Python's `None`, i.e. `Option.none`. -/
structure Node where
  name : Str
  isFile : Bool
  parent : Option Nat := none
  child : Option Nat := none
  next : Option Nat := none
  content : Option (List Str) := none
deriving Repr, DecidableEq, Inhabited

/-- The whole interpreter state: the arena of nodes and the index of the
current directory (`self.current`).  The root is index `0`. -/
structure FS where
  nodes : List Node
  current : Nat
deriving Repr, DecidableEq

/-- The state built by `FileSystem.__init__`: a single parentless
directory named `root`, which is also the current directory. -/
def initFS : FS :=
  { nodes := [{ name := str ("root"), isFile := false }], current := 0 }

/-- Dereference an arena index (out-of-range reads yield the default
node; all executions under the well-formedness invariant stay in range). -/
def nodeAt (fs : FS) (i : Nat) : Node := (fs.nodes[i]?).getD default

/-- Overwrite the fields of node `i` by `f`; a no-op when `i` is not
allocated. -/
def modifyNode (fs : FS) (i : Nat) (f : Node → Node) : FS :=
  match fs.nodes[i]? with
  | some n => { fs with nodes := fs.nodes.set i (f n) }
  | none => fs

/-- `node.name = nm` -/
def setNameF (fs : FS) (i : Nat) (nm : Str) : FS :=
  modifyNode fs i fun n => { n with name := nm }

/-- `node.parent = p` -/
def setParentF (fs : FS) (i : Nat) (p : Option Nat) : FS :=
  modifyNode fs i fun n => { n with parent := p }

/-- `node.child = c` -/
def setChildF (fs : FS) (i : Nat) (c : Option Nat) : FS :=
  modifyNode fs i fun n => { n with child := c }

/-- `node.next = nx` -/
def setNextF (fs : FS) (i : Nat) (nx : Option Nat) : FS :=
  modifyNode fs i fun n => { n with next := nx }

/-- `node.content = c` -/
def setContentF (fs : FS) (i : Nat) (c : Option (List Str)) : FS :=
  modifyNode fs i fun n => { n with content := c }

/-- Allocate a fresh node at the end of the arena (a Python object
construction); its identity is the old arena length. -/
def allocNode (fs : FS) (n : Node) : FS :=
  { fs with nodes := fs.nodes ++ [n] }

/-- The sibling chain starting at reference `c`: the list of nodes Python
visits by following `.next`, cut off by the fuel. -/
def chainFrom (fs : FS) : Nat → Option Nat → List Nat
  | 0, _ => []
  | _ + 1, none => []
  | fuel + 1, some i => i :: chainFrom fs fuel (nodeAt fs i).next

/-- The children of node `i` in sibling order, as Python's loops
enumerate them (`child = node.child; while child: ...`). -/
def childrenOf (fs : FS) (i : Nat) : List Nat :=
  chainFrom fs fs.nodes.length (nodeAt fs i).child

/-- The walk of Python's `find_child` from sibling reference `c`:
return the first node in the chain whose `name` equals `nm`. -/
def findChildAux (fs : FS) : Nat → Option Nat → Str → Option Nat
  | 0, _, _ => none
  | _ + 1, none, _ => none
  | fuel + 1, some i, nm =>
    if (nodeAt fs i).name = nm then some i
    else findChildAux fs fuel (nodeAt fs i).next nm

/-- `find_child(parent, name)`. -/
def find_child (fs : FS) (parentId : Nat) (nm : Str) : Option Nat :=
  findChildAux fs fs.nodes.length (nodeAt fs parentId).child nm

/-- `FileSystemNode.add_child`: `child.next = self.child; self.child = child`. -/
def addChild (fs : FS) (parentId childId : Nat) : FS :=
  let fs1 := setNextF fs childId (nodeAt fs parentId).child
  setChildF fs1 parentId (some childId)

/-- Split a string on `/` exactly as Python's `split('/')` does
(so `[] ↦ [[]]`, and separators at the ends produce empty segments). -/
def splitOnSlash : Str → List Str
  | [] => [[]]
  | c :: rest =>
    let r := splitOnSlash rest
    if c = '/' then [] :: r
    else
      match r with
      | [] => [[c]]
      | h :: t => (c :: h) :: t

/-- Python's `strip('/')`: drop `/` characters from both ends. -/
def stripSlash (s : Str) : Str :=
  ((s.dropWhile (fun c => c = '/')).reverse.dropWhile (fun c => c = '/')).reverse

/-- Python's `rsplit('/', 1)`: split at the last `/`; `none` when the
string contains no `/` (the `if "/" in s` test in `cp`/`mv`). -/
def rsplitSlash : Str → Option (Str × Str)
  | [] => none
  | c :: rest =>
    match rsplitSlash rest with
    | some (a, b) => some (c :: a, b)
    | none => if c = '/' then some ([], rest) else none

/-- The segment loop of `get_node_by_path`: skip empty and `.` segments,
`..` moves to the parent when there is one (otherwise stays), any other
segment descends into the named child or fails immediately. -/
def resolveSegs (fs : FS) : Nat → List Str → Option Nat
  | node, [] => some node
  | node, part :: rest =>
    if part = [] ∨ part = str (".") then resolveSegs fs node rest
    else if part = str ("..") then
      match (nodeAt fs node).parent with
      | some p => resolveSegs fs p rest
      | none => resolveSegs fs node rest
    else
      match find_child fs node part with
      | none => none
      | some nxt => resolveSegs fs nxt rest

/-- `FileSystem.get_node_by_path`. -/
def get_node_by_path (fs : FS) (path : Str) : Option Nat :=
  match path with
  | '/' :: _ =>
    if path = str ("/") then some 0
    else resolveSegs fs 0 (splitOnSlash (stripSlash path))
  | _ => resolveSegs fs fs.current (splitOnSlash path)

/-- The error outcomes of the commands, one per distinct failure message
of the source, grouped by the error kinds of the specification
(`invalidArgument` stands for both the bad-suffix and the bad-line-number
messages, as in spec §7). -/
inductive Err where
  | usage
  | notFound
  | notFoundOrNotDir
  | duplicateName
  | rootProtected
  | invalidArgument
  | destIsFile
  | destDuplicate
  | destParentInvalid
  | notAFile
deriving Repr, DecidableEq

/-- Shared tail of `mkdir_command`: duplicate check, then allocate the
directory and link it in front of the target's children. -/
def mkdirCore (fs : FS) (target : Nat) (folderName : Str) : FS × Option Err :=
  if (find_child fs target folderName).isSome then (fs, some .duplicateName)
  else
    let newId := fs.nodes.length
    let fs1 := allocNode fs { name := folderName, isFile := false, parent := some target }
    (addChild fs1 target newId, none)

/-- `FileSystem.mkdir_command` (`args` includes the command word, as in
Python's `command_line.split()`). -/
def mkdir_command (fs : FS) (args : List Str) : FS × Option Err :=
  match args with
  | [_, folderName] => mkdirCore fs fs.current folderName
  | [_, path, folderName] =>
    match get_node_by_path fs path with
    | none => (fs, some .notFoundOrNotDir)
    | some t =>
      if (nodeAt fs t).isFile then (fs, some .notFoundOrNotDir)
      else mkdirCore fs t folderName
  | _ => (fs, some .usage)

/-- Shared tail of `touch_command`: suffix check, duplicate check, then
allocate the file (empty content) and link it in. -/
def touchCore (fs : FS) (target : Nat) (fileName : Str) : FS × Option Err :=
  if ¬ (str (".txt")).isSuffixOf fileName then (fs, some .invalidArgument)
  else if (find_child fs target fileName).isSome then (fs, some .duplicateName)
  else
    let newId := fs.nodes.length
    let fs1 := allocNode fs
      { name := fileName, isFile := true, parent := some target, content := some [] }
    (addChild fs1 target newId, none)

/-- `FileSystem.touch_command`. -/
def touch_command (fs : FS) (args : List Str) : FS × Option Err :=
  match args with
  | [_, fileName] => touchCore fs fs.current fileName
  | [_, path, fileName] =>
    match get_node_by_path fs path with
    | none => (fs, some .notFoundOrNotDir)
    | some t =>
      if (nodeAt fs t).isFile then (fs, some .notFoundOrNotDir)
      else touchCore fs t fileName
  | _ => (fs, some .usage)

/-- `FileSystem.cd_command`. -/
def cd_command (fs : FS) (args : List Str) : FS × Option Err :=
  match args with
  | [_, path] =>
    match get_node_by_path fs path with
    | none => (fs, some .notFoundOrNotDir)
    | some t =>
      if (nodeAt fs t).isFile then (fs, some .notFoundOrNotDir)
      else ({ fs with current := t }, none)
  | _ => (fs, some .usage)

/-- The predecessor search of the unlink loops in `rm_command` and
`mv_command`: walk from `c` until a node whose `next` is `target`. -/
def findPrev (fs : FS) : Nat → Option Nat → Nat → Option Nat
  | 0, _, _ => none
  | _ + 1, none, _ => none
  | fuel + 1, some c, target =>
    if (nodeAt fs c).next = some target then some c
    else findPrev fs fuel (nodeAt fs c).next target

/-- The unlink sequence shared by `rm_command` and `mv_command`:
if the parent's first child is the target, bypass it; otherwise find the
predecessor and bypass via its `next` (nothing happens when the target is
not in the chain, exactly as the Python loop falls through). -/
def unlinkChild (fs : FS) (parentId target : Nat) : FS :=
  if (nodeAt fs parentId).child = some target then
    setChildF fs parentId (nodeAt fs target).next
  else
    match findPrev fs fs.nodes.length (nodeAt fs parentId).child target with
    | some c => setNextF fs c (nodeAt fs target).next
    | none => fs

/-- `FileSystem.rm_command`.  `remove_subtree` writes no field (it only
recurses for the benefit of the garbage collector), so removal is exactly
the unlink. -/
def rm_command (fs : FS) (args : List Str) : FS × Option Err :=
  match args with
  | [_, path] =>
    match get_node_by_path fs path with
    | none => (fs, some .notFound)
    | some t =>
      match (nodeAt fs t).parent with
      | none => (fs, some .rootProtected)
      | some p => (unlinkChild fs p t, none)
  | _ => (fs, some .usage)

/-- `FileSystem.rename_command`. -/
def rename_command (fs : FS) (args : List Str) : FS × Option Err :=
  match args with
  | [_, path, newName] =>
    match get_node_by_path fs path with
    | none => (fs, some .notFound)
    | some t =>
      match (nodeAt fs t).parent with
      | none => (fs, some .rootProtected)
      | some p =>
        if (find_child fs p newName).isSome then (fs, some .duplicateName)
        else (setNameF fs t newName, none)
  | _ => (fs, some .usage)

mutual
/-- `FileSystem.deep_copy`: allocate a copy of `nodeId` under
`newParent` (content copied by slice for files, `None` for directories),
then copy the children; returns the new state and the copy's identity. -/
def deep_copyF : Nat → FS → Nat → Option Nat → FS × Nat
  | 0, fs, _, _ => (fs, fs.nodes.length)
  | fuel + 1, fs, nodeId, newParent =>
    let n := nodeAt fs nodeId
    let cid := fs.nodes.length
    let fs1 := allocNode fs
      { name := n.name, isFile := n.isFile, parent := newParent,
        content := if n.isFile then some (n.content.getD []) else none }
    (deep_copyChain fuel fs1 n.child cid, cid)

/-- The child loop of `deep_copy`: for each source child, recursively
copy it and `add_child` it to the copy (which therefore receives the
children in reversed sibling order); `child = child.next` is read after
the recursive copy, as in the source.  When the fuel runs out (which the
fuel supplied at the call sites rules out on every well-formed state) the
returned identity is the out-of-range sentinel `fs.nodes.length`, so the
artifact writes nothing into live nodes. -/
def deep_copyChain : Nat → FS → Option Nat → Nat → FS
  | 0, fs, _, _ => fs
  | _ + 1, fs, none, _ => fs
  | fuel + 1, fs, some c, cid =>
    let res := deep_copyF fuel fs c (some cid)
    let fs3 := addChild res.1 cid res.2
    deep_copyChain fuel fs3 (nodeAt fs3 c).next cid
end

/-- The fuel passed to `deep_copy` at its call sites: two units per
arena node dominate the recursion depth of every well-formed subtree. -/
def dcFuel (fs : FS) : Nat := 2 * fs.nodes.length + 2

/-- Destination splitting shared by `cp_command` and `mv_command` when
the destination does not resolve: split `<parent-path>/<new-name>` at the
last slash (empty parent part means the root), or create in `.` when the
spec has no slash. -/
def destSplit (dstPath : Str) : Str × Str :=
  match rsplitSlash dstPath with
  | some (pp, nn) => (if pp = [] then str ("/") else pp, nn)
  | none => (str ("."), dstPath)

/-- `FileSystem.cp_command`. -/
def cp_command (fs : FS) (args : List Str) : FS × Option Err :=
  match args with
  | [_, srcPath, dstPath] =>
    match get_node_by_path fs srcPath with
    | none => (fs, some .notFound)
    | some src =>
      match get_node_by_path fs dstPath with
      | some dst =>
        if (nodeAt fs dst).isFile then (fs, some .destIsFile)
        else if (find_child fs dst (nodeAt fs src).name).isSome then
          (fs, some .destDuplicate)
        else
          let res := deep_copyF (dcFuel fs) fs src (some dst)
          (addChild res.1 dst res.2, none)
      | none =>
        let pd := destSplit dstPath
        match get_node_by_path fs pd.1 with
        | none => (fs, some .destParentInvalid)
        | some parentDst =>
          if (nodeAt fs parentDst).isFile then (fs, some .destParentInvalid)
          else if (find_child fs parentDst pd.2).isSome then
            (fs, some .destDuplicate)
          else
            let res := deep_copyF (dcFuel fs) fs src (some parentDst)
            let fs2 := setNameF res.1 res.2 pd.2
            (addChild fs2 parentDst res.2, none)
  | _ => (fs, some .usage)

/-- `FileSystem.mv_command`, with the two destination forms and the exact
write order of the source: unlink from the old parent, set `parent`
(and `name` in the name-only form), then splice in front of the new
parent's children. -/
def mv_command (fs : FS) (args : List Str) : FS × Option Err :=
  match args with
  | [_, srcPath, dstPath] =>
    match get_node_by_path fs srcPath with
    | none => (fs, some .notFound)
    | some src =>
      match (nodeAt fs src).parent with
      | none => (fs, some .rootProtected)
      | some parent =>
        match get_node_by_path fs dstPath with
        | some dst =>
          if (nodeAt fs dst).isFile then (fs, some .destIsFile)
          else if (find_child fs dst (nodeAt fs src).name).isSome then
            (fs, some .destDuplicate)
          else
            let fs1 := unlinkChild fs parent src
            let fs2 := setParentF fs1 src (some dst)
            let fs3 := setNextF fs2 src (nodeAt fs2 dst).child
            (setChildF fs3 dst (some src), none)
        | none =>
          let pd := destSplit dstPath
          match get_node_by_path fs pd.1 with
          | none => (fs, some .destParentInvalid)
          | some parentDst =>
            if (nodeAt fs parentDst).isFile then (fs, some .destParentInvalid)
            else if (find_child fs parentDst pd.2).isSome then
              (fs, some .destDuplicate)
            else
              let fs1 := unlinkChild fs parent src
              let fs2 := setParentF fs1 src (some parentDst)
              let fs3 := setNameF fs2 src pd.2
              let fs4 := setNextF fs3 src (nodeAt fs3 parentDst).child
              (setChildF fs4 parentDst (some src), none)
  | _ => (fs, some .usage)

/-- `FileSystem.nwfiletxt_command`, with the sentinel-terminated input
already materialised as `inputLines` (the capture loop is the caller's
responsibility, spec §5). -/
def nwfiletxt_command (fs : FS) (args : List Str) (inputLines : List Str) :
    FS × Option Err :=
  match args with
  | [_, path] =>
    match get_node_by_path fs path with
    | none => (fs, some .notAFile)
    | some t =>
      if ¬ (nodeAt fs t).isFile then (fs, some .notAFile)
      else (setContentF fs t (some inputLines), none)
  | _ => (fs, some .usage)

/-- `FileSystem.appendtxt_command`, input materialised as `inputLines`. -/
def appendtxt_command (fs : FS) (args : List Str) (inputLines : List Str) :
    FS × Option Err :=
  match args with
  | [_, path] =>
    match get_node_by_path fs path with
    | none => (fs, some .notAFile)
    | some t =>
      if ¬ (nodeAt fs t).isFile then (fs, some .notAFile)
      else (setContentF fs t (some (((nodeAt fs t).content).getD [] ++ inputLines)), none)
  | _ => (fs, some .usage)

/-- The digit run of a decimal literal, as a number. -/
def digitsToNat (ds : List Char) : Nat :=
  ds.foldl (fun a c => a * 10 + (c.toNat - ('0').toNat)) 0

/-- Python's `int(s)` on command tokens: optional surrounding blanks,
optional sign, then a non-empty run of decimal digits; everything else
raises `ValueError`, i.e. `none`. -/
def parseInt (s : Str) : Option Int :=
  let t := ((s.dropWhile (fun c => c = ' ')).reverse.dropWhile (fun c => c = ' ')).reverse
  match t with
  | '-' :: ds =>
    if ds ≠ [] ∧ ds.all (fun c => c.isDigit) then some (-(digitsToNat ds : Int)) else none
  | '+' :: ds =>
    if ds ≠ [] ∧ ds.all (fun c => c.isDigit) then some ((digitsToNat ds : Int)) else none
  | ds =>
    if ds ≠ [] ∧ ds.all (fun c => c.isDigit) then some ((digitsToNat ds : Int)) else none

/-- Python's `" ".join(tokens)` for the trailing `<new_text>` tokens. -/
def joinSpace (xs : List Str) : Str := (xs.intersperse (str (" "))).flatten

/-- `FileSystem.editline_command`. -/
def editline_command (fs : FS) (args : List Str) : FS × Option Err :=
  match args with
  | _ :: path :: lineStr :: text1 :: restText =>
    match get_node_by_path fs path with
    | none => (fs, some .notAFile)
    | some t =>
      if ¬ (nodeAt fs t).isFile then (fs, some .notAFile)
      else
        match parseInt lineStr with
        | none => (fs, some .invalidArgument)
        | some ln =>
          let content := ((nodeAt fs t).content).getD []
          if ln < 1 ∨ ln > (content.length : Int) then (fs, some .invalidArgument)
          else
            (setContentF fs t
              (some (content.set (ln - 1).toNat (joinSpace (text1 :: restText)))), none)
  | _ => (fs, some .usage)

/-- `FileSystem.deline_command`. -/
def deline_command (fs : FS) (args : List Str) : FS × Option Err :=
  match args with
  | [_, path, lineStr] =>
    match get_node_by_path fs path with
    | none => (fs, some .notAFile)
    | some t =>
      if ¬ (nodeAt fs t).isFile then (fs, some .notAFile)
      else
        match parseInt lineStr with
        | none => (fs, some .invalidArgument)
        | some ln =>
          let content := ((nodeAt fs t).content).getD []
          if ln < 1 ∨ ln > (content.length : Int) then (fs, some .invalidArgument)
          else (setContentF fs t (some (content.eraseIdx (ln - 1).toNat)), none)
  | _ => (fs, some .usage)

/-- `cat_command`'s output: the lines of the file, or an error. -/
def cat_output (fs : FS) (args : List Str) : Except Err (List Str) :=
  match args with
  | [_, path] =>
    match get_node_by_path fs path with
    | none => Except.error .notAFile
    | some t =>
      if ¬ (nodeAt fs t).isFile then Except.error .notAFile
      else Except.ok (((nodeAt fs t).content).getD [])
  | _ => Except.error .usage

/-- `ls_command`'s listing: the current directory's children in chain
order, directories suffixed with `/`. -/
def ls_output (fs : FS) : List Str :=
  (childrenOf fs fs.current).map fun i =>
    let n := nodeAt fs i
    if n.isFile then n.name else n.name ++ str ("/")

/-- One dispatched command of `process_command` (content capture already
materialised for the two interactive editors). -/
inductive Cmd where
  | mkdir (args : List Str)
  | touch (args : List Str)
  | cd (args : List Str)
  | rm (args : List Str)
  | rename (args : List Str)
  | cp (args : List Str)
  | mv (args : List Str)
  | nwfiletxt (args : List Str) (inputLines : List Str)
  | appendtxt (args : List Str) (inputLines : List Str)
  | editline (args : List Str)
  | deline (args : List Str)
deriving Repr, DecidableEq

/-- Dispatch of one command to its handler. -/
def step (fs : FS) : Cmd → FS × Option Err
  | .mkdir args => mkdir_command fs args
  | .touch args => touch_command fs args
  | .cd args => cd_command fs args
  | .rm args => rm_command fs args
  | .rename args => rename_command fs args
  | .cp args => cp_command fs args
  | .mv args => mv_command fs args
  | .nwfiletxt args inp => nwfiletxt_command fs args inp
  | .appendtxt args inp => appendtxt_command fs args inp
  | .editline args => editline_command fs args
  | .deline args => deline_command fs args

/-- Run a command sequence from a state (errors leave their state, like
the interactive loop that prints and continues). -/
def execList (fs : FS) : List Cmd → FS
  | [] => fs
  | c :: cs => execList (step fs c).1 cs

/-! ## C1: atomicity on error -/

/-- C1: for every mutating operation (mkdir, touch, cd, rm, rename, cp, mv
and the content editors), if the operation reports an error then the tree
(all parent/child links, node names, kinds, contents, and the cursor) is
exactly as it was before the call: every handler checks all of its
preconditions before writing any field, so no partial mutation is ever
observable. -/
theorem claim_C1_atomic_on_error (fs : FS) (c : Cmd) (e : Err)
    (h : (step fs c).2 = some e) : (step fs c).1 = fs := by
  cases c <;>
    unfold step mkdir_command mkdirCore touch_command touchCore cd_command rm_command
      rename_command cp_command mv_command nwfiletxt_command appendtxt_command
      editline_command deline_command at * <;>
  repeat first
  | rfl
  | (split at h)
  | simp_all

/-- Witness for C1 at a concrete erroneous call: `rm` of a missing path
reports not-found and leaves the initial state untouched. -/
theorem claim_C1_atomic_on_error_witness :
    (step initFS (Cmd.rm [str ("rm"), str ("x")])).2 = some Err.notFound ∧
    (step initFS (Cmd.rm [str ("rm"), str ("x")])).1 = initFS :=
  ⟨by decide, claim_C1_atomic_on_error _ _ Err.notFound (by decide)⟩

/-! ## C5: path resolution refines the specified algorithm -/

/-- The first child of `node` whose name equals `seg`, phrased as a search
over the children list. -/
def specChild (fs : FS) (node : Nat) (seg : Str) : Option Nat :=
  (childrenOf fs node).find? (fun c => decide ((nodeAt fs c).name = seg))

/-- The resolver exactly as the specification words it (spec 4.1): empty
and dot segments are no-ops, a dot-dot segment moves to the parent and is
clamped (a no-op) where there is no parent - in the spec's data model
only the root is parentless - and any other segment descends into the
named child or fails immediately, without looking at later segments. -/
def specWalk (fs : FS) : Nat → List Str → Option Nat
  | node, [] => some node
  | node, seg :: rest =>
    if seg = [] then specWalk fs node rest
    else if seg = str (".") then specWalk fs node rest
    else if seg = str ("..") then
      match (nodeAt fs node).parent with
      | none => specWalk fs node rest
      | some p => specWalk fs p rest
    else
      match specChild fs node seg with
      | none => none
      | some c => specWalk fs c rest

/-- The resolution contract of spec 4.1: a path with a leading slash is
resolved from the root, any other path from the cursor; the path is split
into segments on the slash character and the segments are walked. -/
def resolveSpec (fs : FS) (path : Str) : Option Nat :=
  if path.head? = some '/' then specWalk fs 0 (splitOnSlash path)
  else specWalk fs fs.current (splitOnSlash path)

theorem find?_eq_findChildAux (fs : FS) (nm : Str) :
    ∀ (fuel : Nat) (c : Option Nat),
      (chainFrom fs fuel c).find? (fun i => decide ((nodeAt fs i).name = nm)) =
        findChildAux fs fuel c nm := by
  intro fuel
  induction fuel with
  | zero => intro c; rfl
  | succ f ih =>
    intro c
    cases c with
    | none => rfl
    | some i =>
      simp only [chainFrom, findChildAux, List.find?]
      by_cases h : (nodeAt fs i).name = nm <;> simp [h, ih]

theorem specChild_eq_find_child (fs : FS) (node : Nat) (nm : Str) :
    specChild fs node nm = find_child fs node nm := by
  unfold specChild find_child childrenOf
  exact find?_eq_findChildAux fs nm fs.nodes.length (nodeAt fs node).child

theorem specWalk_eq_resolveSegs (fs : FS) (L : List Str) :
    ∀ n, specWalk fs n L = resolveSegs fs n L := by
  induction L with
  | nil => intro n; rfl
  | cons seg rest ih =>
    intro n
    simp only [specWalk, resolveSegs, specChild_eq_find_child]
    by_cases h1 : seg = []
    · rw [if_pos h1, if_pos (Or.inl h1)]; exact ih n
    · by_cases h2 : seg = str (".")
      · rw [if_neg h1, if_pos h2, if_pos (Or.inr h2)]; exact ih n
      · have h12 : ¬ (seg = [] ∨ seg = str (".")) := by tauto
        by_cases h3 : seg = str ("..")
        · rw [if_neg h1, if_neg h2, if_pos h3, if_neg h12, if_pos h3]
          cases (nodeAt fs n).parent <;> simp [ih]
        · rw [if_neg h1, if_neg h2, if_neg h3, if_neg h12, if_neg h3]
          cases find_child fs n seg <;> simp [ih]

theorem splitOnSlash_ne_nil (s : Str) : splitOnSlash s ≠ [] := by
  cases s with
  | nil => simp [splitOnSlash]
  | cons c rest =>
    simp only [splitOnSlash]
    by_cases h : c = '/'
    · simp [h]
    · simp only [if_neg h]
      cases splitOnSlash rest <;> simp

theorem splitOnSlash_append_slash (s : Str) :
    splitOnSlash (s ++ ['/']) = splitOnSlash s ++ [[]] := by
  induction s with
  | nil => rfl
  | cons c rest ih =>
    simp only [List.cons_append, splitOnSlash]
    by_cases h : c = '/'
    · simp [h, ih]
    · simp only [if_neg h, ih]
      cases hr : splitOnSlash rest with
      | nil => exact absurd hr (splitOnSlash_ne_nil rest)
      | cons hh tt => rw [List.append_eq, ih, hr]; simp

theorem resolveSegs_skip_empty (fs : FS) (n : Nat) (L : List Str) :
    resolveSegs fs n ([] :: L) = resolveSegs fs n L := by
  simp [resolveSegs]

theorem resolveSegs_append_emptyseg (fs : FS) (L : List Str) :
    ∀ n, resolveSegs fs n (L ++ [[]]) = resolveSegs fs n L := by
  induction L with
  | nil => intro n; simp [resolveSegs]
  | cons seg rest ih =>
    intro n
    simp only [List.cons_append, resolveSegs]
    by_cases h1 : seg = [] ∨ seg = str (".")
    · rw [if_pos h1, if_pos h1]; exact ih n
    · by_cases h2 : seg = str ("..")
      · rw [if_neg h1, if_pos h2, if_neg h1, if_pos h2]
        cases (nodeAt fs n).parent <;> simp [ih]
      · rw [if_neg h1, if_neg h2, if_neg h1, if_neg h2]
        cases find_child fs n seg <;> simp [ih]

theorem resolveSegs_split_dropWhile (fs : FS) (s : Str) :
    ∀ n, resolveSegs fs n (splitOnSlash (s.dropWhile (fun c => c = '/'))) =
      resolveSegs fs n (splitOnSlash s) := by
  induction s with
  | nil => intro n; rfl
  | cons c rest ih =>
    intro n
    by_cases h : c = '/'
    · subst h
      rw [List.dropWhile_cons_of_pos (by simp)]
      rw [show splitOnSlash ('/' :: rest) = [] :: splitOnSlash rest by simp [splitOnSlash]]
      rw [resolveSegs_skip_empty]
      exact ih n
    · rw [List.dropWhile_cons_of_neg (by simp [h])]

theorem resolveSegs_split_append_slashes (fs : FS) (t : Str) :
    (∀ c ∈ t, c = '/') →
    ∀ s n, resolveSegs fs n (splitOnSlash (s ++ t)) = resolveSegs fs n (splitOnSlash s) := by
  induction t using List.reverseRecOn with
  | nil => intro _ s n; simp
  | append_singleton t' c ih =>
    intro ht s n
    have hc : c = '/' := ht c (by simp)
    subst hc
    have ht' : ∀ d ∈ t', d = '/' := fun d hd => ht d (by simp [hd])
    rw [show s ++ (t' ++ ['/']) = (s ++ t') ++ ['/'] by simp]
    rw [splitOnSlash_append_slash, resolveSegs_append_emptyseg, ih ht' s n]

theorem dropWhile_eq_strip_append (s : Str) :
    ∃ t, (∀ c ∈ t, c = '/') ∧
      s.dropWhile (fun c => c = '/') = stripSlash s ++ t := by
  refine ⟨((s.dropWhile (fun c => c = '/')).reverse.takeWhile (fun c => c = '/')).reverse,
    ?_, ?_⟩
  · intro c hc
    rw [List.mem_reverse] at hc
    have := List.mem_takeWhile_imp hc
    simpa using this
  · unfold stripSlash
    conv_lhs => rw [show s.dropWhile (fun c => c = '/') =
      ((s.dropWhile (fun c => c = '/')).reverse).reverse by simp]
    rw [show ((s.dropWhile (fun c => c = '/')).reverse).reverse =
      ((s.dropWhile (fun c => c = '/')).reverse.takeWhile (fun c => c = '/') ++
       (s.dropWhile (fun c => c = '/')).reverse.dropWhile (fun c => c = '/')).reverse by
        rw [List.takeWhile_append_dropWhile]]
    rw [List.reverse_append]

/-- C5: `resolve` processes a path exactly as specified: a leading slash
starts at the root, otherwise at the cursor; the path is split on the
slash; empty and dot segments are no-ops; a dot-dot segment moves to the
parent and is clamped at a parentless node (only the root); any other
segment must name an existing child, else the result is not-found
immediately.  `get_node_by_path` is a pure function of the state, so
resolution never mutates the tree or the cursor. -/
theorem claim_C5_resolution (fs : FS) (path : Str) :
    get_node_by_path fs path = resolveSpec fs path := by
  cases path with
  | nil =>
    unfold get_node_by_path resolveSpec
    simp [specWalk_eq_resolveSegs]
  | cons c rest =>
    by_cases hc : c = '/'
    · subst hc
      have hget : get_node_by_path fs ('/' :: rest) =
          if ('/' :: rest : Str) = str ("/") then some 0
          else resolveSegs fs 0 (splitOnSlash (stripSlash ('/' :: rest))) := rfl
      rw [hget]
      unfold resolveSpec
      have hhead : ('/' :: rest).head? = some '/' := rfl
      rw [if_pos hhead, specWalk_eq_resolveSegs]
      by_cases hp : ('/' :: rest : Str) = str ("/")
      · rw [if_pos hp, hp]; rfl
      · rw [if_neg hp]
        obtain ⟨t, ht, hdrop⟩ := dropWhile_eq_strip_append ('/' :: rest)
        calc resolveSegs fs 0 (splitOnSlash (stripSlash ('/' :: rest)))
            = resolveSegs fs 0 (splitOnSlash (stripSlash ('/' :: rest) ++ t)) :=
              (resolveSegs_split_append_slashes fs t ht _ 0).symm
          _ = resolveSegs fs 0
              (splitOnSlash (('/' :: rest).dropWhile (fun d => d = '/'))) := by
              rw [hdrop]
          _ = resolveSegs fs 0 (splitOnSlash ('/' :: rest)) :=
              resolveSegs_split_dropWhile fs _ 0
    · unfold get_node_by_path resolveSpec
      have hhead : ¬ ((c :: rest).head? = some '/') := by simp [hc]
      rw [if_neg hhead, specWalk_eq_resolveSegs]
      split
      · next tail heq => simp at heq; exact absurd heq.1 hc
      · rfl

/-! ## C10: rename to the current name always collides -/

theorem findChildAux_isSome_of_mem (fs : FS) (nm : Str) :
    ∀ (fuel : Nat) (c : Option Nat) (i : Nat),
      i ∈ chainFrom fs fuel c → (nodeAt fs i).name = nm →
      (findChildAux fs fuel c nm).isSome := by
  intro fuel
  induction fuel with
  | zero => intro c i hi; simp [chainFrom] at hi
  | succ f ih =>
    intro c i hi hn
    cases c with
    | none => simp [chainFrom] at hi
    | some j =>
      simp only [chainFrom, List.mem_cons] at hi
      simp only [findChildAux]
      by_cases hj : (nodeAt fs j).name = nm
      · simp [hj]
      · rw [if_neg hj]
        rcases hi with hi | hi
        · subst hi; exact absurd hn hj
        · exact ih (nodeAt fs j).next i hi hn

/-- C10: renaming a non-root node to its own current name always fails
with a duplicate-name error and leaves the state unchanged, because the
sibling-uniqueness search (`find_child` on the parent) matches the node
itself; renaming a node to its existing name never succeeds as a no-op. -/
theorem claim_C10_rename_self_collides (fs : FS) (path : Str) (t p : Nat)
    (h1 : get_node_by_path fs path = some t)
    (h2 : (nodeAt fs t).parent = some p)
    (h3 : t ∈ childrenOf fs p) :
    rename_command fs [str ("rename"), path, (nodeAt fs t).name] =
      (fs, some Err.duplicateName) := by
  have hred : rename_command fs [str ("rename"), path, (nodeAt fs t).name] =
      (match get_node_by_path fs path with
       | none => (fs, some Err.notFound)
       | some u =>
         match (nodeAt fs u).parent with
         | none => (fs, some Err.rootProtected)
         | some q =>
           if (find_child fs q (nodeAt fs t).name).isSome then
             (fs, some Err.duplicateName)
           else (setNameF fs u (nodeAt fs t).name, none)) := rfl
  have hfind : (find_child fs p (nodeAt fs t).name).isSome := by
    unfold find_child
    exact findChildAux_isSome_of_mem fs _ fs.nodes.length _ t h3 rfl
  simp only [hred, h1, h2, hfind, if_true]

/-- Witness for C10: in the state with one directory `a` under the root,
renaming `/a` to `a` reports a duplicate name and changes nothing. -/
theorem claim_C10_rename_self_collides_witness :
    rename_command (execList initFS [Cmd.mkdir [str ("mkdir"), str ("a")]])
        [str ("rename"), str ("/a"), str ("a")] =
      (execList initFS [Cmd.mkdir [str ("mkdir"), str ("a")]],
        some Err.duplicateName) := by
  have h := claim_C10_rename_self_collides
    (execList initFS [Cmd.mkdir [str ("mkdir"), str ("a")]])
    (str ("/a")) 1 0 (by decide) (by decide) (by decide)
  exact h

/-! ## C8: 1-indexed line editing -/

/-- The `parent` reference of node `i`. -/
def parentOf (fs : FS) (i : Nat) : Option Nat := (nodeAt fs i).parent

/-- The strict ancestors of `i`: the nodes visited by following `parent`
references, cut off by the fuel. -/
def ancChain (fs : FS) : Nat → Nat → List Nat
  | 0, _ => []
  | fuel + 1, i =>
    match parentOf fs i with
    | none => []
    | some p => p :: ancChain fs fuel p

/-- `k`-fold iteration of the `parent` reference. -/
def parIter (fs : FS) : Nat → Nat → Option Nat
  | 0, i => some i
  | k + 1, i =>
    match parentOf fs i with
    | none => none
    | some p => parIter fs k p

/-- The parent chain from `i` reaches a parentless node within `fuel`
steps. -/
def chainTerm (fs : FS) : Nat → Nat → Bool
  | 0, i => decide (parentOf fs i = none)
  | fuel + 1, i =>
    match parentOf fs i with
    | none => true
    | some p => chainTerm fs fuel p

/-- Decidable acyclicity, as the claim states it: no allocated node is
its own strict ancestor. -/
def acyclicB (fs : FS) : Bool :=
  (List.range fs.nodes.length).all fun i =>
    decide (i ∉ ancChain fs (fs.nodes.length + 1) i)

/-- Every parent chain terminates (no fuel bound). -/
def Rooted (fs : FS) : Prop := ∀ i, ∃ n, chainTerm fs n i = true

/-- The invariant carried through the reachability induction: a nonempty
arena, a cursor in range, parents in range, and terminating parent
chains. -/
def ParentInv (fs : FS) : Prop :=
  0 < fs.nodes.length ∧ fs.current < fs.nodes.length ∧
    (∀ i p, parentOf fs i = some p → p < fs.nodes.length) ∧ Rooted fs

theorem nodeAt_ge (fs : FS) (i : Nat) (h : fs.nodes.length ≤ i) :
    nodeAt fs i = default := by
  unfold nodeAt
  rw [List.getElem?_eq_none h]
  rfl

theorem parIter_add (fs : FS) (a b i : Nat) :
    parIter fs (a + b) i = (parIter fs a i).bind (parIter fs b) := by
  induction a generalizing i with
  | zero => simp [parIter]
  | succ a ih =>
    rw [show a + 1 + b = (a + b) + 1 by omega]
    simp only [parIter]
    cases parentOf fs i with
    | none => simp
    | some p => simp [ih]

/-- A node on a parent cycle has no terminating chain. -/
theorem no_cycle_of_chainTerm (fs : FS) :
    ∀ n k i, 1 ≤ k → parIter fs k i = some i → chainTerm fs n i = true → False := by
  intro n
  induction n with
  | zero =>
    intro k i hk hcyc hterm
    simp only [chainTerm, decide_eq_true_eq] at hterm
    cases k with
    | zero => omega
    | succ m => simp [parIter, hterm] at hcyc
  | succ m ih =>
    intro k i hk hcyc hterm
    simp only [chainTerm] at hterm
    cases hp : parentOf fs i with
    | none =>
      cases k with
      | zero => omega
      | succ l => simp [parIter, hp] at hcyc
    | some p =>
      rw [hp] at hterm
      have hrot : parIter fs k p = some p := by
        have h1 : parIter fs (k + 1) i = parIter fs k p := by
          simp [parIter, hp]
        have h2 : parIter fs (k + 1) i = some p := by
          rw [parIter_add fs k 1 i, hcyc]
          simp [parIter, hp]
        rw [← h1, h2]
      exact ih k p hk hrot hterm

theorem parIter_of_mem_ancChain (fs : FS) :
    ∀ fuel i j, j ∈ ancChain fs fuel i → ∃ k, 1 ≤ k ∧ parIter fs k i = some j := by
  intro fuel
  induction fuel with
  | zero => intro i j hj; simp [ancChain] at hj
  | succ f ih =>
    intro i j hj
    simp only [ancChain] at hj
    cases hp : parentOf fs i with
    | none => rw [hp] at hj; simp at hj
    | some p =>
      rw [hp] at hj
      rcases List.mem_cons.mp hj with hj | hj
      · subst hj
        exact ⟨1, le_refl 1, by simp [parIter, hp]⟩
      · obtain ⟨k, hk1, hk2⟩ := ih p j hj
        refine ⟨k + 1, by omega, ?_⟩
        simp [parIter, hp, hk2]

/-- Rootedness gives the claim's acyclicity. -/
theorem acyclicB_of_rooted (fs : FS) (h : Rooted fs) : acyclicB fs = true := by
  unfold acyclicB
  rw [List.all_eq_true]
  intro i _
  rw [decide_eq_true_eq]
  intro hmem
  obtain ⟨k, hk1, hk2⟩ := parIter_of_mem_ancChain fs _ i i hmem
  obtain ⟨n, hn⟩ := h i
  exact no_cycle_of_chainTerm fs n k i hk1 hk2 hn

theorem length_modifyNode (fs : FS) (j : Nat) (f : Node → Node) :
    (modifyNode fs j f).nodes.length = fs.nodes.length := by
  unfold modifyNode
  cases fs.nodes[j]? <;> simp

theorem current_modifyNode (fs : FS) (j : Nat) (f : Node → Node) :
    (modifyNode fs j f).current = fs.current := by
  unfold modifyNode
  cases fs.nodes[j]? <;> simp

theorem nodeAt_modifyNode (fs : FS) (j : Nat) (f : Node → Node) (i : Nat) :
    nodeAt (modifyNode fs j f) i =
      if i = j then
        match fs.nodes[j]? with
        | some n => f n
        | none => nodeAt fs i
      else nodeAt fs i := by
  unfold modifyNode nodeAt
  cases hj : fs.nodes[j]? with
  | none => simp
  | some n =>
    rcases eq_or_ne i j with rfl | hne
    · have hlt : i < fs.nodes.length := (List.getElem?_eq_some.mp hj).1
      simp [List.getElem?_set_self hlt, hj]
    · simp [hne, List.getElem?_set_ne (Ne.symm hne)]

theorem parentOf_modifyNode_keep (fs : FS) (j : Nat) (f : Node → Node)
    (hf : ∀ n, (f n).parent = n.parent) (i : Nat) :
    parentOf (modifyNode fs j f) i = parentOf fs i := by
  unfold parentOf nodeAt modifyNode
  cases hj : fs.nodes[j]? with
  | none => rfl
  | some n =>
    rcases eq_or_ne i j with rfl | hne
    · have hlt : i < fs.nodes.length := (List.getElem?_eq_some.mp hj).1
      simp [List.getElem?_set_self hlt, hj, hf]
    · simp [List.getElem?_set_ne (Ne.symm hne)]

theorem parentOf_setChildF (fs : FS) (j : Nat) (c : Option Nat) (i : Nat) :
    parentOf (setChildF fs j c) i = parentOf fs i := by
  unfold setChildF
  exact parentOf_modifyNode_keep fs j (fun n => { n with child := c }) (fun n => rfl) i

theorem parentOf_setNextF (fs : FS) (j : Nat) (c : Option Nat) (i : Nat) :
    parentOf (setNextF fs j c) i = parentOf fs i := by
  unfold setNextF
  exact parentOf_modifyNode_keep fs j (fun n => { n with next := c }) (fun n => rfl) i

theorem parentOf_setNameF (fs : FS) (j : Nat) (c : Str) (i : Nat) :
    parentOf (setNameF fs j c) i = parentOf fs i := by
  unfold setNameF
  exact parentOf_modifyNode_keep fs j (fun n => { n with name := c }) (fun n => rfl) i

theorem parentOf_setContentF (fs : FS) (j : Nat) (c : Option (List Str)) (i : Nat) :
    parentOf (setContentF fs j c) i = parentOf fs i := by
  unfold setContentF
  exact parentOf_modifyNode_keep fs j (fun n => { n with content := c }) (fun n => rfl) i

theorem parentOf_addChild (fs : FS) (p c i : Nat) :
    parentOf (addChild fs p c) i = parentOf fs i := by
  unfold addChild
  rw [parentOf_setChildF, parentOf_setNextF]

theorem chainTerm_congr (fs fs' : FS)
    (h : ∀ i, parentOf fs' i = parentOf fs i) :
    ∀ n i, chainTerm fs' n i = chainTerm fs n i := by
  intro n
  induction n with
  | zero => intro i; simp [chainTerm, h]
  | succ m ih =>
    intro i
    simp only [chainTerm, h]
    cases parentOf fs i <;> simp [ih]

theorem rooted_congr (fs fs' : FS)
    (h : ∀ i, parentOf fs' i = parentOf fs i) (hr : Rooted fs) : Rooted fs' := by
  intro i
  obtain ⟨n, hn⟩ := hr i
  exact ⟨n, by rw [chainTerm_congr fs fs' h n i]; exact hn⟩

/-- Chains out of old nodes are unaffected by changes beyond the old
length. -/
theorem chainTerm_restrict (fs fs' : FS) (N : Nat)
    (hsame : ∀ j, j < N → parentOf fs' j = parentOf fs j)
    (hok : ∀ j p, parentOf fs j = some p → p < N) :
    ∀ n i, i < N → chainTerm fs n i = true → chainTerm fs' n i = true := by
  intro n
  induction n with
  | zero =>
    intro i hi ht
    simp only [chainTerm, decide_eq_true_eq] at ht ⊢
    rw [hsame i hi, ht]
  | succ m ih =>
    intro i hi ht
    simp only [chainTerm] at ht ⊢
    rw [hsame i hi]
    cases hp : parentOf fs i with
    | none => simp
    | some p =>
      rw [hp] at ht
      exact ih p (hok i p hp) ht

/-- Extending the arena with nodes whose parents point downwards keeps
every chain terminating. -/
theorem rooted_extend (fs fs' : FS)
    (hsame : ∀ j, j < fs.nodes.length → parentOf fs' j = parentOf fs j)
    (hnew : ∀ j, fs.nodes.length ≤ j → ∀ q, parentOf fs' j = some q → q < j)
    (hok : ∀ j p, parentOf fs j = some p → p < fs.nodes.length)
    (hr : Rooted fs) : Rooted fs' := by
  intro i
  induction i using Nat.strong_induction_on with
  | _ i ih =>
    rcases lt_or_ge i fs.nodes.length with hi | hi
    · obtain ⟨n, hn⟩ := hr i
      exact ⟨n, chainTerm_restrict fs fs' fs.nodes.length hsame hok n i hi hn⟩
    · cases hq : parentOf fs' i with
      | none => exact ⟨0, by simp [chainTerm, hq]⟩
      | some q =>
        have hqi : q < i := hnew i hi q hq
        obtain ⟨n, hn⟩ := ih q hqi
        exact ⟨n + 1, by simp [chainTerm, hq, hn]⟩

/-- Redirecting one node's parent to a node whose ancestor chain avoids
it keeps every chain terminating. -/
theorem rooted_redirect (fs fs' : FS) (src d : Nat)
    (hupd : ∀ j, parentOf fs' j = if j = src then some d else parentOf fs j)
    (havoid : ∀ k, parIter fs k d ≠ some src)
    (hr : Rooted fs) : Rooted fs' := by
  have havoid_term : ∀ n x, (∀ k, parIter fs k x ≠ some src) →
      chainTerm fs n x = true → chainTerm fs' n x = true := by
    intro n
    induction n with
    | zero =>
      intro x hav hn
      simp only [chainTerm, decide_eq_true_eq] at hn ⊢
      have hxs : x ≠ src := fun h => hav 0 (by simp [parIter, h])
      rw [hupd, if_neg hxs, hn]
    | succ m ih =>
      intro x hav hn
      simp only [chainTerm] at hn ⊢
      have hxs : x ≠ src := fun h => hav 0 (by simp [parIter, h])
      rw [hupd, if_neg hxs]
      cases hp : parentOf fs x with
      | none => simp
      | some p =>
        simp only [hp] at hn
        exact ih p (fun k hk => hav (k + 1) (by simp [parIter, hp, hk])) hn
  have hdterm : ∃ n, chainTerm fs' n d = true := by
    obtain ⟨n, hn⟩ := hr d
    exact ⟨n, havoid_term n d havoid hn⟩
  intro i
  obtain ⟨n, hn⟩ := hr i
  induction n generalizing i with
  | zero =>
    simp only [chainTerm, decide_eq_true_eq] at hn
    rcases eq_or_ne i src with rfl | hne
    · obtain ⟨nd, hnd⟩ := hdterm
      exact ⟨nd + 1, by simp [chainTerm, hupd, hnd]⟩
    · exact ⟨0, by simp [chainTerm, hupd, hne, hn]⟩
  | succ m ih =>
    rcases eq_or_ne i src with rfl | hne
    · obtain ⟨nd, hnd⟩ := hdterm
      exact ⟨nd + 1, by simp [chainTerm, hupd, hnd]⟩
    · simp only [chainTerm] at hn
      cases hp : parentOf fs i with
      | none => exact ⟨0, by simp [chainTerm, hupd, hne, hp]⟩
      | some p =>
        simp only [hp] at hn
        obtain ⟨np, hnp⟩ := ih p hn
        exact ⟨np + 1, by simp [chainTerm, hupd, hne, hp, hnp]⟩

theorem findChildAux_lt_of_ne_nil (fs : FS) (nm : Str) (hnm : nm ≠ []) :
    ∀ fuel c j, findChildAux fs fuel c nm = some j → j < fs.nodes.length := by
  intro fuel
  induction fuel with
  | zero => intro c j h; simp [findChildAux] at h
  | succ f ih =>
    intro c j h
    cases c with
    | none => simp [findChildAux] at h
    | some i =>
      simp only [findChildAux] at h
      by_cases hname : (nodeAt fs i).name = nm
      · rw [if_pos hname] at h
        cases h
        by_contra hge
        rw [nodeAt_ge fs j (by omega)] at hname
        exact hnm (by simpa using hname.symm)
      · rw [if_neg hname] at h
        exact ih _ j h

theorem resolveSegs_lt (fs : FS)
    (hpar : ∀ i p, parentOf fs i = some p → p < fs.nodes.length) :
    ∀ L n t, n < fs.nodes.length → resolveSegs fs n L = some t →
      t < fs.nodes.length := by
  intro L
  induction L with
  | nil => intro n t hn h; cases h; exact hn
  | cons seg rest ih =>
    intro n t hn h
    simp only [resolveSegs] at h
    by_cases h1 : seg = [] ∨ seg = str (".")
    · rw [if_pos h1] at h; exact ih n t hn h
    · rw [if_neg h1] at h
      by_cases h2 : seg = str ("..")
      · rw [if_pos h2] at h
        cases hp : (nodeAt fs n).parent with
        | none => rw [hp] at h; exact ih n t hn h
        | some p =>
          rw [hp] at h
          exact ih p t (hpar n p hp) h
      · rw [if_neg h2] at h
        cases hf : find_child fs n seg with
        | none => rw [hf] at h; cases h
        | some nxt =>
          rw [hf] at h
          have hseg : seg ≠ [] := fun he => h1 (Or.inl he)
          have hlt : nxt < fs.nodes.length :=
            findChildAux_lt_of_ne_nil fs seg hseg _ _ nxt hf
          exact ih nxt t hlt h

theorem get_node_by_path_lt (fs : FS) (path : Str) (t : Nat)
    (h0 : 0 < fs.nodes.length) (hcur : fs.current < fs.nodes.length)
    (hpar : ∀ i p, parentOf fs i = some p → p < fs.nodes.length)
    (h : get_node_by_path fs path = some t) : t < fs.nodes.length := by
  unfold get_node_by_path at h
  split at h
  · split at h
    · cases h; exact h0
    · exact resolveSegs_lt fs hpar _ 0 t h0 h
  · exact resolveSegs_lt fs hpar _ fs.current t hcur h

theorem length_allocNode (fs : FS) (n : Node) :
    (allocNode fs n).nodes.length = fs.nodes.length + 1 := by
  simp [allocNode]

theorem nodeAt_allocNode (fs : FS) (n : Node) (i : Nat) :
    nodeAt (allocNode fs n) i =
      if i = fs.nodes.length then n else nodeAt fs i := by
  unfold allocNode nodeAt
  rcases eq_or_ne i fs.nodes.length with rfl | hne
  · rw [List.getElem?_append_right (le_refl _)]
    simp
  · rcases lt_or_ge i fs.nodes.length with hlt | hge
    · rw [List.getElem?_append, if_pos hlt, if_neg hne]
    · have h2 : (fs.nodes ++ [n]).length ≤ i := by
        simp only [List.length_append, List.length_cons, List.length_nil]
        omega
      rw [List.getElem?_eq_none h2, List.getElem?_eq_none hge]
      simp [hne]

/-- Footprint of one `deep_copy` call relative to the prefix below `N`:
the arena only grows, the cursor is unchanged, nodes below `N` are
untouched, no existing node's parent changes, and every new node's parent
points strictly below it. -/
def DCPost (fs fs2 : FS) (N : Nat) : Prop :=
  fs.nodes.length ≤ fs2.nodes.length ∧
  fs2.current = fs.current ∧
  (∀ i, i < N → nodeAt fs2 i = nodeAt fs i) ∧
  (∀ j, j < fs.nodes.length → parentOf fs2 j = parentOf fs j) ∧
  (∀ j q, fs.nodes.length ≤ j → parentOf fs2 j = some q → q < j)

theorem parentOf_ge (fs : FS) (j : Nat) (h : fs.nodes.length ≤ j) :
    parentOf fs j = none := by
  unfold parentOf
  rw [nodeAt_ge fs j h]
  rfl

theorem DCPost_refl (fs : FS) (N : Nat) : DCPost fs fs N := by
  refine ⟨le_refl _, rfl, fun i _ => rfl, fun j _ => rfl, fun j q hj hq => ?_⟩
  rw [parentOf_ge fs j hj] at hq
  cases hq

theorem DCPost_trans (fs fs2 fs3 : FS) (N : Nat)
    (h1 : DCPost fs fs2 N) (h2 : DCPost fs2 fs3 N) : DCPost fs fs3 N := by
  obtain ⟨l1, c1, f1, p1, n1⟩ := h1
  obtain ⟨l2, c2, f2, p2, n2⟩ := h2
  refine ⟨le_trans l1 l2, by rw [c2, c1], fun i hi => by rw [f2 i hi, f1 i hi],
    fun j hj => by rw [p2 j (by omega), p1 j hj], fun j q hj hq => ?_⟩
  rcases lt_or_ge j fs2.nodes.length with hj2 | hj2
  · rw [p2 j hj2] at hq
    exact n1 j q hj hq
  · exact n2 j q hj2 hq

theorem DCPost_alloc (fs : FS) (n : Node) (N : Nat) (hN : N ≤ fs.nodes.length)
    (hp : ∀ q, n.parent = some q → q < fs.nodes.length) :
    DCPost fs (allocNode fs n) N := by
  refine ⟨by simp [length_allocNode], by simp [allocNode], fun i hi => ?_,
    fun j hj => ?_, fun j q hj hq => ?_⟩
  · rw [nodeAt_allocNode, if_neg (by omega)]
  · unfold parentOf
    rw [nodeAt_allocNode, if_neg (by omega)]
  · unfold parentOf at hq
    rw [nodeAt_allocNode] at hq
    rcases eq_or_ne j fs.nodes.length with rfl | hne
    · rw [if_pos rfl] at hq
      exact hp q hq
    · rw [if_neg hne] at hq
      rw [show (nodeAt fs j).parent = parentOf fs j from rfl,
        parentOf_ge fs j hj] at hq
      cases hq

theorem DCPost_modify_keep (fs : FS) (j : Nat) (f : Node → Node) (N : Nat)
    (hj : N ≤ j) (hf : ∀ n, (f n).parent = n.parent) :
    DCPost fs (modifyNode fs j f) N := by
  refine ⟨by rw [length_modifyNode], by rw [current_modifyNode], fun i hi => ?_,
    fun i _ => parentOf_modifyNode_keep fs j f hf i, fun i q hi hq => ?_⟩
  · rw [nodeAt_modifyNode, if_neg (by omega)]
  · rw [parentOf_modifyNode_keep fs j f hf i] at hq
    rw [parentOf_ge fs i hi] at hq
    cases hq

theorem deep_copyF_snd (fuel : Nat) (fs : FS) (nodeId : Nat) (np : Option Nat) :
    (deep_copyF fuel fs nodeId np).2 = fs.nodes.length := by
  cases fuel <;> rfl

theorem DCPost_addChild (fs : FS) (p c : Nat) (N : Nat)
    (hp : N ≤ p) (hc : N ≤ c) : DCPost fs (addChild fs p c) N := by
  show DCPost fs (setChildF (setNextF fs c (nodeAt fs p).child) p (some c)) N
  refine DCPost_trans fs (setNextF fs c (nodeAt fs p).child) _ N ?_ ?_
  · unfold setNextF
    exact DCPost_modify_keep fs c _ N hc (fun n => rfl)
  · unfold setChildF
    exact DCPost_modify_keep _ p _ N hp (fun n => rfl)

theorem deep_copy_struct : ∀ fuel : Nat,
    (∀ fs nodeId np N, N ≤ fs.nodes.length →
      (∀ p, np = some p → p < fs.nodes.length) →
      DCPost fs (deep_copyF fuel fs nodeId np).1 N) ∧
    (∀ fs c cid N, N ≤ fs.nodes.length → N ≤ cid → cid < fs.nodes.length →
      DCPost fs (deep_copyChain fuel fs c cid) N) := by
  intro fuel
  induction fuel with
  | zero =>
    constructor
    · intro fs nodeId np N hN _
      exact DCPost_refl fs N
    · intro fs c cid N hN _ _
      exact DCPost_refl fs N
  | succ f ih =>
    obtain ⟨ihF, ihC⟩ := ih
    constructor
    · intro fs nodeId np N hN hnp
      have heq : (deep_copyF (f + 1) fs nodeId np).1 =
          deep_copyChain f
            (allocNode fs
              { name := (nodeAt fs nodeId).name, isFile := (nodeAt fs nodeId).isFile,
                parent := np, child := none, next := none,
                content := if (nodeAt fs nodeId).isFile then
                  some (((nodeAt fs nodeId).content).getD []) else none })
            (nodeAt fs nodeId).child fs.nodes.length := rfl
      rw [heq]
      have h1 := DCPost_alloc fs
        { name := (nodeAt fs nodeId).name, isFile := (nodeAt fs nodeId).isFile,
          parent := np, child := none, next := none,
          content := if (nodeAt fs nodeId).isFile then
            some (((nodeAt fs nodeId).content).getD []) else none } N hN hnp
      refine DCPost_trans fs _ _ N h1 ?_
      exact ihC _ _ fs.nodes.length N (by rw [length_allocNode]; omega) hN
        (by rw [length_allocNode]; omega)
    · intro fs c cid N hN hcN hcid
      cases c with
      | none => exact DCPost_refl fs N
      | some ch =>
        have heq : deep_copyChain (f + 1) fs (some ch) cid =
            deep_copyChain f
              (addChild (deep_copyF f fs ch (some cid)).1 cid
                (deep_copyF f fs ch (some cid)).2)
              (nodeAt (addChild (deep_copyF f fs ch (some cid)).1 cid
                (deep_copyF f fs ch (some cid)).2) ch).next cid := rfl
        rw [heq]
        have h1 : DCPost fs (deep_copyF f fs ch (some cid)).1 N :=
          ihF fs ch (some cid) N hN (fun p hp => by cases hp; exact hcid)
        have hlen1 : fs.nodes.length ≤
            (deep_copyF f fs ch (some cid)).1.nodes.length := h1.1
        have h2 : DCPost (deep_copyF f fs ch (some cid)).1
            (addChild (deep_copyF f fs ch (some cid)).1 cid
              (deep_copyF f fs ch (some cid)).2) N := by
          refine DCPost_addChild _ cid _ N hcN ?_
          rw [deep_copyF_snd]
          exact hN
        have hlen2 := h2.1
        refine DCPost_trans fs _ _ N (DCPost_trans fs _ _ N h1 h2) ?_
        exact ihC _ _ cid N (by omega) hcN (by omega)

theorem parentInv_of_parent_eq (fs fs2 : FS)
    (hlen : fs2.nodes.length = fs.nodes.length) (hc : fs2.current = fs.current)
    (hp : ∀ i, parentOf fs2 i = parentOf fs i) (h : ParentInv fs) :
    ParentInv fs2 := by
  obtain ⟨h0, hcur, hpar, hroot⟩ := h
  refine ⟨by omega, by omega, fun i p hip => ?_, rooted_congr fs fs2 hp hroot⟩
  rw [hp i] at hip
  rw [hlen]
  exact hpar i p hip

theorem length_setNameF (fs : FS) (j : Nat) (v : Str) :
    (setNameF fs j v).nodes.length = fs.nodes.length := length_modifyNode fs j _

theorem length_setParentF (fs : FS) (j : Nat) (v : Option Nat) :
    (setParentF fs j v).nodes.length = fs.nodes.length := length_modifyNode fs j _

theorem length_setChildF (fs : FS) (j : Nat) (v : Option Nat) :
    (setChildF fs j v).nodes.length = fs.nodes.length := length_modifyNode fs j _

theorem length_setNextF (fs : FS) (j : Nat) (v : Option Nat) :
    (setNextF fs j v).nodes.length = fs.nodes.length := length_modifyNode fs j _

theorem length_setContentF (fs : FS) (j : Nat) (v : Option (List Str)) :
    (setContentF fs j v).nodes.length = fs.nodes.length := length_modifyNode fs j _

theorem current_setNameF (fs : FS) (j : Nat) (v : Str) :
    (setNameF fs j v).current = fs.current := current_modifyNode fs j _

theorem current_setParentF (fs : FS) (j : Nat) (v : Option Nat) :
    (setParentF fs j v).current = fs.current := current_modifyNode fs j _

theorem current_setChildF (fs : FS) (j : Nat) (v : Option Nat) :
    (setChildF fs j v).current = fs.current := current_modifyNode fs j _

theorem current_setNextF (fs : FS) (j : Nat) (v : Option Nat) :
    (setNextF fs j v).current = fs.current := current_modifyNode fs j _

theorem current_setContentF (fs : FS) (j : Nat) (v : Option (List Str)) :
    (setContentF fs j v).current = fs.current := current_modifyNode fs j _

theorem parentOf_unlinkChild (fs : FS) (p t i : Nat) :
    parentOf (unlinkChild fs p t) i = parentOf fs i := by
  unfold unlinkChild
  split
  · exact parentOf_setChildF fs p _ i
  · split
    · exact parentOf_setNextF fs _ _ i
    · rfl

theorem length_unlinkChild (fs : FS) (p t : Nat) :
    (unlinkChild fs p t).nodes.length = fs.nodes.length := by
  unfold unlinkChild
  split
  · exact length_setChildF fs p _
  · split
    · exact length_setNextF fs _ _
    · rfl

theorem current_unlinkChild (fs : FS) (p t : Nat) :
    (unlinkChild fs p t).current = fs.current := by
  unfold unlinkChild
  split
  · exact current_setChildF fs p _
  · split
    · exact current_setNextF fs _ _
    · rfl

theorem parentOf_setParentF_lt (fs : FS) (j : Nat) (v : Option Nat) (i : Nat)
    (hj : j < fs.nodes.length) :
    parentOf (setParentF fs j v) i = if i = j then v else parentOf fs i := by
  unfold setParentF parentOf nodeAt modifyNode
  cases hjq : fs.nodes[j]? with
  | none =>
    exfalso
    rw [List.getElem?_eq_none_iff] at hjq
    omega
  | some n =>
    rcases eq_or_ne i j with rfl | hne
    · simp [List.getElem?_set_self hj, hjq]
    · simp [List.getElem?_set_ne (Ne.symm hne), hne]

/-- Insertion of one fresh child (the shared shape of `mkdir` and
`touch`) preserves the parent invariant. -/
theorem parentInv_insert (fs : FS) (node : Node) (target : Nat)
    (hnp : node.parent = some target) (ht : target < fs.nodes.length)
    (h : ParentInv fs) :
    ParentInv (addChild (allocNode fs node) target fs.nodes.length) := by
  obtain ⟨h0, hcur, hpar, hroot⟩ := h
  have hlen : (addChild (allocNode fs node) target fs.nodes.length).nodes.length =
      fs.nodes.length + 1 := by
    unfold addChild
    rw [length_setChildF, length_setNextF, length_allocNode]
  have hcur2 : (addChild (allocNode fs node) target fs.nodes.length).current =
      fs.current := by
    unfold addChild
    rw [current_setChildF, current_setNextF]
    simp [allocNode]
  have hpare : ∀ i, parentOf (addChild (allocNode fs node) target fs.nodes.length) i =
      if i = fs.nodes.length then some target else parentOf fs i := by
    intro i
    unfold addChild
    rw [parentOf_setChildF, parentOf_setNextF]
    unfold parentOf
    rw [nodeAt_allocNode]
    rcases eq_or_ne i fs.nodes.length with rfl | hne
    · simp [hnp]
    · simp [hne]
  refine ⟨by omega, by omega, fun i p hip => ?_, ?_⟩
  · rw [hpare i] at hip
    rcases eq_or_ne i fs.nodes.length with rfl | hne
    · rw [if_pos rfl] at hip
      cases hip
      omega
    · rw [if_neg hne] at hip
      have := hpar i p hip
      omega
  · refine rooted_extend fs _ (fun j hj => ?_) (fun j hj q hq => ?_) hpar hroot
    · rw [hpare j, if_neg (by omega)]
    · rw [hpare j] at hq
      rcases eq_or_ne j fs.nodes.length with rfl | hne
      · rw [if_pos rfl] at hq
        cases hq
        omega
      · rw [if_neg hne] at hq
        rw [parentOf_ge fs j hj] at hq
        cases hq

/-- A state reached through a `deep_copy` footprint keeps the parent
invariant. -/
theorem parentInv_dcpost (fs fs2 : FS) (hdc : DCPost fs fs2 fs.nodes.length)
    (h : ParentInv fs) : ParentInv fs2 := by
  obtain ⟨h0, hcur, hpar, hroot⟩ := h
  obtain ⟨hl, hc, hf, hp, hn⟩ := hdc
  refine ⟨by omega, by omega, fun i p hip => ?_, ?_⟩
  · rcases lt_or_ge i fs.nodes.length with hi | hi
    · rw [hp i hi] at hip
      have := hpar i p hip
      omega
    · rcases lt_or_ge i fs2.nodes.length with hi2 | hi2
      · have := hn i p hi hip
        omega
      · rw [parentOf_ge fs2 i hi2] at hip
        cases hip
  · exact rooted_extend fs fs2 hp (fun j hj q hq => hn j q hj hq) hpar hroot

/-- Redirecting a node's parent to a destination outside its subtree
(the `mv` reattachment) preserves the parent invariant. -/
theorem parentInv_reattach (fs fs2 : FS) (src d : Nat)
    (hd : d < fs.nodes.length)
    (hlen : fs2.nodes.length = fs.nodes.length) (hc : fs2.current = fs.current)
    (hupd : ∀ j, parentOf fs2 j = if j = src then some d else parentOf fs j)
    (havoid : ∀ k, parIter fs k d ≠ some src)
    (h : ParentInv fs) : ParentInv fs2 := by
  obtain ⟨h0, hcur, hpar, hroot⟩ := h
  refine ⟨by omega, by omega, fun i p hip => ?_,
    rooted_redirect fs fs2 src d hupd havoid hroot⟩
  rw [hupd i] at hip
  rcases eq_or_ne i src with rfl | hne
  · rw [if_pos rfl] at hip
    cases hip
    omega
  · rw [if_neg hne] at hip
    have := hpar i p hip
    omega

/-- The reattachment a given `mv` invocation would perform: the source
node and the destination parent, defined exactly when every precondition
check of `mv_command` passes (mirrors its branch structure). -/
def mvTarget (fs : FS) (args : List Str) : Option (Nat × Nat) :=
  match args with
  | [_, srcPath, dstPath] =>
    match get_node_by_path fs srcPath with
    | none => none
    | some src =>
      match (nodeAt fs src).parent with
      | none => none
      | some _ =>
        match get_node_by_path fs dstPath with
        | some dst =>
          if (nodeAt fs dst).isFile then none
          else if (find_child fs dst (nodeAt fs src).name).isSome then none
          else some (src, dst)
        | none =>
          let pd := destSplit dstPath
          match get_node_by_path fs pd.1 with
          | none => none
          | some parentDst =>
            if (nodeAt fs parentDst).isFile then none
            else if (find_child fs parentDst pd.2).isSome then none
            else some (src, parentDst)
  | _ => none

/-- The side condition under which a command is run in the amended claim:
an `mv` that reattaches `s` under `d` requires that `s` is not `d` nor an
ancestor of `d` (the destination is outside the moved subtree); all other
commands are unrestricted. -/
def MvGuard (fs : FS) : Cmd → Prop
  | .mv args => ∀ s d, mvTarget fs args = some (s, d) → ∀ k, parIter fs k d ≠ some s
  | _ => True

theorem parentInv_mkdirCore (fs : FS) (target : Nat) (nm : Str)
    (ht : target < fs.nodes.length) (h : ParentInv fs) :
    ParentInv (mkdirCore fs target nm).1 := by
  unfold mkdirCore
  split
  · exact h
  · exact parentInv_insert fs _ target rfl ht h

theorem parentInv_touchCore (fs : FS) (target : Nat) (nm : Str)
    (ht : target < fs.nodes.length) (h : ParentInv fs) :
    ParentInv (touchCore fs target nm).1 := by
  unfold touchCore
  split
  · exact h
  · split
    · exact h
    · exact parentInv_insert fs _ target rfl ht h

theorem parentInv_step (fs : FS) (c : Cmd) (h : ParentInv fs)
    (hg : MvGuard fs c) : ParentInv (step fs c).1 := by
  have h0 := h.1
  have hcur := h.2.1
  have hpar := h.2.2.1
  cases c with
  | mkdir args =>
    rcases args with _ | ⟨a0, _ | ⟨a1, _ | ⟨a2, _ | ⟨a3, rest⟩⟩⟩⟩
    · exact h
    · exact h
    · exact parentInv_mkdirCore fs fs.current a1 hcur h
    · show ParentInv
        ((match get_node_by_path fs a1 with
          | none => (fs, some Err.notFoundOrNotDir)
          | some t =>
            if (nodeAt fs t).isFile = true then (fs, some Err.notFoundOrNotDir)
            else mkdirCore fs t a2).1)
      cases hres : get_node_by_path fs a1 with
      | none => exact h
      | some t =>
        show ParentInv
          ((if (nodeAt fs t).isFile = true then (fs, some Err.notFoundOrNotDir)
            else mkdirCore fs t a2).1)
        split
        · exact h
        · exact parentInv_mkdirCore fs t a2
            (get_node_by_path_lt fs a1 t h0 hcur hpar hres) h
    · exact h
  | touch args =>
    rcases args with _ | ⟨a0, _ | ⟨a1, _ | ⟨a2, _ | ⟨a3, rest⟩⟩⟩⟩
    · exact h
    · exact h
    · exact parentInv_touchCore fs fs.current a1 hcur h
    · show ParentInv
        ((match get_node_by_path fs a1 with
          | none => (fs, some Err.notFoundOrNotDir)
          | some t =>
            if (nodeAt fs t).isFile = true then (fs, some Err.notFoundOrNotDir)
            else touchCore fs t a2).1)
      cases hres : get_node_by_path fs a1 with
      | none => exact h
      | some t =>
        show ParentInv
          ((if (nodeAt fs t).isFile = true then (fs, some Err.notFoundOrNotDir)
            else touchCore fs t a2).1)
        split
        · exact h
        · exact parentInv_touchCore fs t a2
            (get_node_by_path_lt fs a1 t h0 hcur hpar hres) h
    · exact h
  | cd args =>
    rcases args with _ | ⟨a0, _ | ⟨a1, _ | ⟨a2, rest⟩⟩⟩
    · exact h
    · exact h
    · show ParentInv
        ((match get_node_by_path fs a1 with
          | none => (fs, some Err.notFoundOrNotDir)
          | some t =>
            if (nodeAt fs t).isFile = true then (fs, some Err.notFoundOrNotDir)
            else ({ fs with current := t }, none)).1)
      cases hres : get_node_by_path fs a1 with
      | none => exact h
      | some t =>
        show ParentInv
          ((if (nodeAt fs t).isFile = true then (fs, some Err.notFoundOrNotDir)
            else ({ fs with current := t }, none)).1)
        split
        · exact h
        · exact ⟨h0, get_node_by_path_lt fs a1 t h0 hcur hpar hres, hpar,
            rooted_congr fs _ (fun i => rfl) h.2.2.2⟩
    · exact h
  | rm args =>
    rcases args with _ | ⟨a0, _ | ⟨a1, _ | ⟨a2, rest⟩⟩⟩
    · exact h
    · exact h
    · show ParentInv
        ((match get_node_by_path fs a1 with
          | none => (fs, some Err.notFound)
          | some t =>
            match (nodeAt fs t).parent with
            | none => (fs, some Err.rootProtected)
            | some p => (unlinkChild fs p t, none)).1)
      cases hres : get_node_by_path fs a1 with
      | none => exact h
      | some t =>
        show ParentInv
          ((match (nodeAt fs t).parent with
            | none => (fs, some Err.rootProtected)
            | some p => (unlinkChild fs p t, none)).1)
        cases hp : (nodeAt fs t).parent with
        | none => exact h
        | some p =>
          exact parentInv_of_parent_eq fs _ (length_unlinkChild fs p t)
            (current_unlinkChild fs p t) (parentOf_unlinkChild fs p t) h
    · exact h
  | rename args =>
    rcases args with _ | ⟨a0, _ | ⟨a1, _ | ⟨a2, _ | ⟨a3, rest⟩⟩⟩⟩
    · exact h
    · exact h
    · exact h
    · show ParentInv
        ((match get_node_by_path fs a1 with
          | none => (fs, some Err.notFound)
          | some t =>
            match (nodeAt fs t).parent with
            | none => (fs, some Err.rootProtected)
            | some p =>
              if (find_child fs p a2).isSome = true then (fs, some Err.duplicateName)
              else (setNameF fs t a2, none)).1)
      cases hres : get_node_by_path fs a1 with
      | none => exact h
      | some t =>
        show ParentInv
          ((match (nodeAt fs t).parent with
            | none => (fs, some Err.rootProtected)
            | some p =>
              if (find_child fs p a2).isSome = true then (fs, some Err.duplicateName)
              else (setNameF fs t a2, none)).1)
        cases hp : (nodeAt fs t).parent with
        | none => exact h
        | some p =>
          show ParentInv
            ((if (find_child fs p a2).isSome = true then (fs, some Err.duplicateName)
              else (setNameF fs t a2, none)).1)
          split
          · exact h
          · exact parentInv_of_parent_eq fs _ (length_setNameF fs t a2)
              (current_setNameF fs t a2) (parentOf_setNameF fs t a2) h
    · exact h
  | nwfiletxt args inp =>
    rcases args with _ | ⟨a0, _ | ⟨a1, _ | ⟨a2, rest⟩⟩⟩
    · exact h
    · exact h
    · show ParentInv
        ((match get_node_by_path fs a1 with
          | none => (fs, some Err.notAFile)
          | some t =>
            if ¬ (nodeAt fs t).isFile = true then (fs, some Err.notAFile)
            else (setContentF fs t (some inp), none)).1)
      cases hres : get_node_by_path fs a1 with
      | none => exact h
      | some t =>
        show ParentInv
          ((if ¬ (nodeAt fs t).isFile = true then (fs, some Err.notAFile)
            else (setContentF fs t (some inp), none)).1)
        split
        · exact h
        · exact parentInv_of_parent_eq fs _ (length_setContentF fs t _)
            (current_setContentF fs t _) (parentOf_setContentF fs t _) h
    · exact h
  | appendtxt args inp =>
    rcases args with _ | ⟨a0, _ | ⟨a1, _ | ⟨a2, rest⟩⟩⟩
    · exact h
    · exact h
    · show ParentInv
        ((match get_node_by_path fs a1 with
          | none => (fs, some Err.notAFile)
          | some t =>
            if ¬ (nodeAt fs t).isFile = true then (fs, some Err.notAFile)
            else (setContentF fs t
              (some (((nodeAt fs t).content).getD [] ++ inp)), none)).1)
      cases hres : get_node_by_path fs a1 with
      | none => exact h
      | some t =>
        show ParentInv
          ((if ¬ (nodeAt fs t).isFile = true then (fs, some Err.notAFile)
            else (setContentF fs t
              (some (((nodeAt fs t).content).getD [] ++ inp)), none)).1)
        split
        · exact h
        · exact parentInv_of_parent_eq fs _ (length_setContentF fs t _)
            (current_setContentF fs t _) (parentOf_setContentF fs t _) h
    · exact h
  | editline args =>
    rcases args with _ | ⟨a0, _ | ⟨a1, _ | ⟨a2, _ | ⟨a3, rest⟩⟩⟩⟩
    · exact h
    · exact h
    · exact h
    · exact h
    · show ParentInv
        ((match get_node_by_path fs a1 with
          | none => (fs, some Err.notAFile)
          | some t =>
            if ¬ (nodeAt fs t).isFile = true then (fs, some Err.notAFile)
            else
              match parseInt a2 with
              | none => (fs, some Err.invalidArgument)
              | some ln =>
                if ln < 1 ∨ ln > ((((nodeAt fs t).content).getD []).length : Int) then
                  (fs, some Err.invalidArgument)
                else
                  (setContentF fs t
                    (some ((((nodeAt fs t).content).getD []).set (ln - 1).toNat
                      (joinSpace (a3 :: rest)))), none)).1)
      cases hres : get_node_by_path fs a1 with
      | none => exact h
      | some t =>
        show ParentInv
          ((if ¬ (nodeAt fs t).isFile = true then (fs, some Err.notAFile)
            else
              match parseInt a2 with
              | none => (fs, some Err.invalidArgument)
              | some ln =>
                if ln < 1 ∨ ln > ((((nodeAt fs t).content).getD []).length : Int) then
                  (fs, some Err.invalidArgument)
                else
                  (setContentF fs t
                    (some ((((nodeAt fs t).content).getD []).set (ln - 1).toNat
                      (joinSpace (a3 :: rest)))), none)).1)
        split
        · exact h
        · cases hpi : parseInt a2 with
          | none => exact h
          | some ln =>
            show ParentInv
              ((if ln < 1 ∨ ln > ((((nodeAt fs t).content).getD []).length : Int) then
                  (fs, some Err.invalidArgument)
                else
                  (setContentF fs t
                    (some ((((nodeAt fs t).content).getD []).set (ln - 1).toNat
                      (joinSpace (a3 :: rest)))), none)).1)
            split
            · exact h
            · exact parentInv_of_parent_eq fs _ (length_setContentF fs t _)
                (current_setContentF fs t _) (parentOf_setContentF fs t _) h
  | deline args =>
    rcases args with _ | ⟨a0, _ | ⟨a1, _ | ⟨a2, _ | ⟨a3, rest⟩⟩⟩⟩
    · exact h
    · exact h
    · exact h
    · show ParentInv
        ((match get_node_by_path fs a1 with
          | none => (fs, some Err.notAFile)
          | some t =>
            if ¬ (nodeAt fs t).isFile = true then (fs, some Err.notAFile)
            else
              match parseInt a2 with
              | none => (fs, some Err.invalidArgument)
              | some ln =>
                if ln < 1 ∨ ln > ((((nodeAt fs t).content).getD []).length : Int) then
                  (fs, some Err.invalidArgument)
                else
                  (setContentF fs t
                    (some ((((nodeAt fs t).content).getD []).eraseIdx (ln - 1).toNat)),
                    none)).1)
      cases hres : get_node_by_path fs a1 with
      | none => exact h
      | some t =>
        show ParentInv
          ((if ¬ (nodeAt fs t).isFile = true then (fs, some Err.notAFile)
            else
              match parseInt a2 with
              | none => (fs, some Err.invalidArgument)
              | some ln =>
                if ln < 1 ∨ ln > ((((nodeAt fs t).content).getD []).length : Int) then
                  (fs, some Err.invalidArgument)
                else
                  (setContentF fs t
                    (some ((((nodeAt fs t).content).getD []).eraseIdx (ln - 1).toNat)),
                    none)).1)
        split
        · exact h
        · cases hpi : parseInt a2 with
          | none => exact h
          | some ln =>
            show ParentInv
              ((if ln < 1 ∨ ln > ((((nodeAt fs t).content).getD []).length : Int) then
                  (fs, some Err.invalidArgument)
                else
                  (setContentF fs t
                    (some ((((nodeAt fs t).content).getD []).eraseIdx (ln - 1).toNat)),
                    none)).1)
            split
            · exact h
            · exact parentInv_of_parent_eq fs _ (length_setContentF fs t _)
                (current_setContentF fs t _) (parentOf_setContentF fs t _) h
    · exact h
  | cp args =>
    rcases args with _ | ⟨a0, _ | ⟨a1, _ | ⟨a2, _ | ⟨a3, rest⟩⟩⟩⟩
    · exact h
    · exact h
    · exact h
    · show ParentInv
        ((match get_node_by_path fs a1 with
          | none => (fs, some Err.notFound)
          | some src =>
            match get_node_by_path fs a2 with
            | some dst =>
              if (nodeAt fs dst).isFile = true then (fs, some Err.destIsFile)
              else if (find_child fs dst (nodeAt fs src).name).isSome = true then
                (fs, some Err.destDuplicate)
              else
                (addChild (deep_copyF (dcFuel fs) fs src (some dst)).1 dst
                  (deep_copyF (dcFuel fs) fs src (some dst)).2, none)
            | none =>
              match get_node_by_path fs (destSplit a2).1 with
              | none => (fs, some Err.destParentInvalid)
              | some parentDst =>
                if (nodeAt fs parentDst).isFile = true then
                  (fs, some Err.destParentInvalid)
                else if (find_child fs parentDst (destSplit a2).2).isSome = true then
                  (fs, some Err.destDuplicate)
                else
                  (addChild
                    (setNameF (deep_copyF (dcFuel fs) fs src (some parentDst)).1
                      (deep_copyF (dcFuel fs) fs src (some parentDst)).2
                      (destSplit a2).2)
                    parentDst
                    (deep_copyF (dcFuel fs) fs src (some parentDst)).2, none)).1)
      cases hsrc : get_node_by_path fs a1 with
      | none => exact h
      | some src =>
        cases hdst : get_node_by_path fs a2 with
        | some dst =>
          show ParentInv
            ((if (nodeAt fs dst).isFile = true then (fs, some Err.destIsFile)
              else if (find_child fs dst (nodeAt fs src).name).isSome = true then
                (fs, some Err.destDuplicate)
              else
                (addChild (deep_copyF (dcFuel fs) fs src (some dst)).1 dst
                  (deep_copyF (dcFuel fs) fs src (some dst)).2, none)).1)
          split
          · exact h
          · split
            · exact h
            · have hdlt : dst < fs.nodes.length :=
                get_node_by_path_lt fs a2 dst h0 hcur hpar hdst
              have hdc : DCPost fs (deep_copyF (dcFuel fs) fs src (some dst)).1
                  fs.nodes.length :=
                (deep_copy_struct (dcFuel fs)).1 fs src (some dst) fs.nodes.length
                  (le_refl _) (fun p hp => by cases hp; exact hdlt)
              have h2 := parentInv_dcpost fs _ hdc h
              refine parentInv_of_parent_eq _ _ ?_ ?_ ?_ h2
              · show (addChild _ _ _).nodes.length = _
                unfold addChild
                rw [length_setChildF, length_setNextF]
              · show (addChild _ _ _).current = _
                unfold addChild
                rw [current_setChildF, current_setNextF]
              · intro i
                show parentOf (addChild _ _ _) i = _
                rw [parentOf_addChild]
        | none =>
          show ParentInv
            ((match get_node_by_path fs (destSplit a2).1 with
              | none => (fs, some Err.destParentInvalid)
              | some parentDst =>
                if (nodeAt fs parentDst).isFile = true then
                  (fs, some Err.destParentInvalid)
                else if (find_child fs parentDst (destSplit a2).2).isSome = true then
                  (fs, some Err.destDuplicate)
                else
                  (addChild
                    (setNameF (deep_copyF (dcFuel fs) fs src (some parentDst)).1
                      (deep_copyF (dcFuel fs) fs src (some parentDst)).2
                      (destSplit a2).2)
                    parentDst
                    (deep_copyF (dcFuel fs) fs src (some parentDst)).2, none)).1)
          cases hpd : get_node_by_path fs (destSplit a2).1 with
          | none => exact h
          | some parentDst =>
            show ParentInv
              ((if (nodeAt fs parentDst).isFile = true then
                  (fs, some Err.destParentInvalid)
                else if (find_child fs parentDst (destSplit a2).2).isSome = true then
                  (fs, some Err.destDuplicate)
                else
                  (addChild
                    (setNameF (deep_copyF (dcFuel fs) fs src (some parentDst)).1
                      (deep_copyF (dcFuel fs) fs src (some parentDst)).2
                      (destSplit a2).2)
                    parentDst
                    (deep_copyF (dcFuel fs) fs src (some parentDst)).2, none)).1)
            split
            · exact h
            · split
              · exact h
              · have hdlt : parentDst < fs.nodes.length :=
                  get_node_by_path_lt fs _ parentDst h0 hcur hpar hpd
                have hdc : DCPost fs
                    (deep_copyF (dcFuel fs) fs src (some parentDst)).1
                    fs.nodes.length :=
                  (deep_copy_struct (dcFuel fs)).1 fs src (some parentDst)
                    fs.nodes.length (le_refl _) (fun p hp => by cases hp; exact hdlt)
                have h2 := parentInv_dcpost fs _ hdc h
                refine parentInv_of_parent_eq _ _ ?_ ?_ ?_ h2
                · show (addChild _ _ _).nodes.length = _
                  unfold addChild
                  rw [length_setChildF, length_setNextF, length_setNameF]
                · show (addChild _ _ _).current = _
                  unfold addChild
                  rw [current_setChildF, current_setNextF, current_setNameF]
                · intro i
                  show parentOf (addChild _ _ _) i = _
                  rw [parentOf_addChild, parentOf_setNameF]
    · exact h
  | mv args =>
    rcases args with _ | ⟨a0, _ | ⟨a1, _ | ⟨a2, _ | ⟨a3, rest⟩⟩⟩⟩
    · exact h
    · exact h
    · exact h
    · simp only [MvGuard] at hg
      show ParentInv
        ((match get_node_by_path fs a1 with
          | none => (fs, some Err.notFound)
          | some src =>
            match (nodeAt fs src).parent with
            | none => (fs, some Err.rootProtected)
            | some parent =>
              match get_node_by_path fs a2 with
              | some dst =>
                if (nodeAt fs dst).isFile = true then (fs, some Err.destIsFile)
                else if (find_child fs dst (nodeAt fs src).name).isSome = true then
                  (fs, some Err.destDuplicate)
                else
                  (setChildF
                    (setNextF (setParentF (unlinkChild fs parent src) src (some dst))
                      src
                      (nodeAt (setParentF (unlinkChild fs parent src) src (some dst))
                        dst).child)
                    dst (some src), none)
              | none =>
                match get_node_by_path fs (destSplit a2).1 with
                | none => (fs, some Err.destParentInvalid)
                | some parentDst =>
                  if (nodeAt fs parentDst).isFile = true then
                    (fs, some Err.destParentInvalid)
                  else if (find_child fs parentDst (destSplit a2).2).isSome = true then
                    (fs, some Err.destDuplicate)
                  else
                    (setChildF
                      (setNextF
                        (setNameF
                          (setParentF (unlinkChild fs parent src) src (some parentDst))
                          src (destSplit a2).2)
                        src
                        (nodeAt
                          (setNameF
                            (setParentF (unlinkChild fs parent src) src (some parentDst))
                            src (destSplit a2).2)
                          parentDst).child)
                      parentDst (some src), none)).1)
      cases hsrc : get_node_by_path fs a1 with
      | none => exact h
      | some src =>
        show ParentInv
          ((match (nodeAt fs src).parent with
            | none => (fs, some Err.rootProtected)
            | some parent =>
              match get_node_by_path fs a2 with
              | some dst =>
                if (nodeAt fs dst).isFile = true then (fs, some Err.destIsFile)
                else if (find_child fs dst (nodeAt fs src).name).isSome = true then
                  (fs, some Err.destDuplicate)
                else
                  (setChildF
                    (setNextF (setParentF (unlinkChild fs parent src) src (some dst))
                      src
                      (nodeAt (setParentF (unlinkChild fs parent src) src (some dst))
                        dst).child)
                    dst (some src), none)
              | none =>
                match get_node_by_path fs (destSplit a2).1 with
                | none => (fs, some Err.destParentInvalid)
                | some parentDst =>
                  if (nodeAt fs parentDst).isFile = true then
                    (fs, some Err.destParentInvalid)
                  else if (find_child fs parentDst (destSplit a2).2).isSome = true then
                    (fs, some Err.destDuplicate)
                  else
                    (setChildF
                      (setNextF
                        (setNameF
                          (setParentF (unlinkChild fs parent src) src (some parentDst))
                          src (destSplit a2).2)
                        src
                        (nodeAt
                          (setNameF
                            (setParentF (unlinkChild fs parent src) src (some parentDst))
                            src (destSplit a2).2)
                          parentDst).child)
                      parentDst (some src), none)).1)
        have hslt : src < fs.nodes.length :=
          get_node_by_path_lt fs a1 src h0 hcur hpar hsrc
        cases hp : (nodeAt fs src).parent with
        | none => exact h
        | some parent =>
          show ParentInv
            ((match get_node_by_path fs a2 with
              | some dst =>
                if (nodeAt fs dst).isFile = true then (fs, some Err.destIsFile)
                else if (find_child fs dst (nodeAt fs src).name).isSome = true then
                  (fs, some Err.destDuplicate)
                else
                  (setChildF
                    (setNextF (setParentF (unlinkChild fs parent src) src (some dst))
                      src
                      (nodeAt (setParentF (unlinkChild fs parent src) src (some dst))
                        dst).child)
                    dst (some src), none)
              | none =>
                match get_node_by_path fs (destSplit a2).1 with
                | none => (fs, some Err.destParentInvalid)
                | some parentDst =>
                  if (nodeAt fs parentDst).isFile = true then
                    (fs, some Err.destParentInvalid)
                  else if (find_child fs parentDst (destSplit a2).2).isSome = true then
                    (fs, some Err.destDuplicate)
                  else
                    (setChildF
                      (setNextF
                        (setNameF
                          (setParentF (unlinkChild fs parent src) src (some parentDst))
                          src (destSplit a2).2)
                        src
                        (nodeAt
                          (setNameF
                            (setParentF (unlinkChild fs parent src) src (some parentDst))
                            src (destSplit a2).2)
                          parentDst).child)
                      parentDst (some src), none)).1)
          cases hdst : get_node_by_path fs a2 with
          | some dst =>
            show ParentInv
              ((if (nodeAt fs dst).isFile = true then (fs, some Err.destIsFile)
                else if (find_child fs dst (nodeAt fs src).name).isSome = true then
                  (fs, some Err.destDuplicate)
                else
                  (setChildF
                    (setNextF (setParentF (unlinkChild fs parent src) src (some dst))
                      src
                      (nodeAt (setParentF (unlinkChild fs parent src) src (some dst))
                        dst).child)
                    dst (some src), none)).1)
            by_cases hfile : (nodeAt fs dst).isFile = true
            · rw [if_pos hfile]
              exact h
            · rw [if_neg hfile]
              by_cases hdup : (find_child fs dst (nodeAt fs src).name).isSome = true
              · rw [if_pos hdup]
                exact h
              · rw [if_neg hdup]
                have hdlt : dst < fs.nodes.length :=
                  get_node_by_path_lt fs a2 dst h0 hcur hpar hdst
                have hmt : mvTarget fs [a0, a1, a2] = some (src, dst) := by
                  show (match get_node_by_path fs a1 with
                    | none => none
                    | some src =>
                      match (nodeAt fs src).parent with
                      | none => none
                      | some _ =>
                        match get_node_by_path fs a2 with
                        | some dst =>
                          if (nodeAt fs dst).isFile = true then none
                          else if (find_child fs dst (nodeAt fs src).name).isSome = true
                            then none
                          else some (src, dst)
                        | none =>
                          match get_node_by_path fs (destSplit a2).1 with
                          | none => none
                          | some parentDst =>
                            if (nodeAt fs parentDst).isFile = true then none
                            else if (find_child fs parentDst
                                (destSplit a2).2).isSome = true then none
                            else some (src, parentDst)) = some (src, dst)
                  simp only [hsrc, hp, hdst]
                  rw [if_neg hfile, if_neg hdup]
                have havoid := hg src dst hmt
                have hl1 := length_unlinkChild fs parent src
                refine parentInv_reattach fs _ src dst hdlt ?_ ?_ ?_ havoid h
                · rw [length_setChildF, length_setNextF, length_setParentF, hl1]
                · rw [current_setChildF, current_setNextF, current_setParentF,
                    current_unlinkChild]
                · intro j
                  rw [parentOf_setChildF, parentOf_setNextF,
                    parentOf_setParentF_lt _ _ _ _ (by rw [hl1]; exact hslt)]
                  rcases eq_or_ne j src with rfl | hne
                  · simp
                  · rw [if_neg hne, if_neg hne, parentOf_unlinkChild]
          | none =>
            show ParentInv
              ((match get_node_by_path fs (destSplit a2).1 with
                | none => (fs, some Err.destParentInvalid)
                | some parentDst =>
                  if (nodeAt fs parentDst).isFile = true then
                    (fs, some Err.destParentInvalid)
                  else if (find_child fs parentDst (destSplit a2).2).isSome = true then
                    (fs, some Err.destDuplicate)
                  else
                    (setChildF
                      (setNextF
                        (setNameF
                          (setParentF (unlinkChild fs parent src) src (some parentDst))
                          src (destSplit a2).2)
                        src
                        (nodeAt
                          (setNameF
                            (setParentF (unlinkChild fs parent src) src (some parentDst))
                            src (destSplit a2).2)
                          parentDst).child)
                      parentDst (some src), none)).1)
            cases hpd : get_node_by_path fs (destSplit a2).1 with
            | none => exact h
            | some parentDst =>
              show ParentInv
                ((if (nodeAt fs parentDst).isFile = true then
                    (fs, some Err.destParentInvalid)
                  else if (find_child fs parentDst (destSplit a2).2).isSome = true then
                    (fs, some Err.destDuplicate)
                  else
                    (setChildF
                      (setNextF
                        (setNameF
                          (setParentF (unlinkChild fs parent src) src (some parentDst))
                          src (destSplit a2).2)
                        src
                        (nodeAt
                          (setNameF
                            (setParentF (unlinkChild fs parent src) src (some parentDst))
                            src (destSplit a2).2)
                          parentDst).child)
                      parentDst (some src), none)).1)
              by_cases hfile : (nodeAt fs parentDst).isFile = true
              · rw [if_pos hfile]
                exact h
              · rw [if_neg hfile]
                by_cases hdup : (find_child fs parentDst (destSplit a2).2).isSome = true
                · rw [if_pos hdup]
                  exact h
                · rw [if_neg hdup]
                  have hdlt : parentDst < fs.nodes.length :=
                    get_node_by_path_lt fs _ parentDst h0 hcur hpar hpd
                  have hmt : mvTarget fs [a0, a1, a2] = some (src, parentDst) := by
                    show (match get_node_by_path fs a1 with
                      | none => none
                      | some src =>
                        match (nodeAt fs src).parent with
                        | none => none
                        | some _ =>
                          match get_node_by_path fs a2 with
                          | some dst =>
                            if (nodeAt fs dst).isFile = true then none
                            else if (find_child fs dst
                                (nodeAt fs src).name).isSome = true then none
                            else some (src, dst)
                          | none =>
                            match get_node_by_path fs (destSplit a2).1 with
                            | none => none
                            | some parentDst =>
                              if (nodeAt fs parentDst).isFile = true then none
                              else if (find_child fs parentDst
                                  (destSplit a2).2).isSome = true then none
                              else some (src, parentDst)) = some (src, parentDst)
                    simp only [hsrc, hp, hdst, hpd]
                    rw [if_neg hfile, if_neg hdup]
                  have havoid := hg src parentDst hmt
                  have hl1 := length_unlinkChild fs parent src
                  refine parentInv_reattach fs _ src parentDst hdlt ?_ ?_ ?_ havoid h
                  · rw [length_setChildF, length_setNextF, length_setNameF,
                      length_setParentF, hl1]
                  · rw [current_setChildF, current_setNextF, current_setNameF,
                      current_setParentF, current_unlinkChild]
                  · intro j
                    rw [parentOf_setChildF, parentOf_setNextF, parentOf_setNameF,
                      parentOf_setParentF_lt _ _ _ _ (by rw [hl1]; exact hslt)]
                    rcases eq_or_ne j src with rfl | hne
                    · simp
                    · rw [if_neg hne, if_neg hne, parentOf_unlinkChild]
    · exact h

theorem parentOf_initFS (i : Nat) : parentOf initFS i = none := by
  cases i with
  | zero => rfl
  | succ n =>
    apply parentOf_ge
    simp [initFS]

theorem parentInv_init : ParentInv initFS := by
  refine ⟨by simp [initFS], by simp [initFS], fun i p hip => ?_, fun i => ⟨0, ?_⟩⟩
  · rw [parentOf_initFS] at hip
    cases hip
  · simp [chainTerm, parentOf_initFS]

/-- States reachable from the initial state through command sequences in
which every `mv` reattaches its source under a destination outside the
moved subtree (`MvGuard`); all other commands are unrestricted. -/
inductive ReachesGuarded : FS → Prop where
  | init : ReachesGuarded initFS
  | step (fs : FS) (c : Cmd) : ReachesGuarded fs → MvGuard fs c →
      ReachesGuarded (step fs c).1

theorem parentInv_reaches (fs : FS) (h : ReachesGuarded fs) : ParentInv fs := by
  induction h with
  | init => exact parentInv_init
  | step fs c hr hg ih => exact parentInv_step fs c ih hg

/-- Counterexample to C3 as stated: after `mkdir a`, `mkdir /a b` and
`mv /a /a/b` — moving directory `a` into its own subtree — the tree has a
node that is its own ancestor (`a` and `b` are each other's parents), so
acyclicity is not preserved by every structural operation. -/
theorem claim_C3_counterexample :
    acyclicB (execList initFS
      [Cmd.mkdir [str ("mkdir"), str ("a")],
       Cmd.mkdir [str ("mkdir"), str ("/a"), str ("b")],
       Cmd.mv [str ("mv"), str ("/a"), str ("/a/b")]]) = false := by decide

/-- C3 amended: acyclicity (no node its own ancestor) holds in every
state reachable by mkdir, touch, cd, rm, rename, cp, the content editors,
and those mv operations whose destination parent is not the moved node or
a node of its subtree; an mv into the moved node's own subtree can create
a cycle (see the counterexample). -/
theorem claim_C3_acyclic_guarded (fs : FS) (h : ReachesGuarded fs) :
    acyclicB fs = true :=
  acyclicB_of_rooted fs (parentInv_reaches fs h).2.2.2

/-- Witness for the amended C3 at a concrete reachable state. -/
theorem claim_C3_acyclic_guarded_witness :
    acyclicB (step initFS (Cmd.mkdir [str ("mkdir"), str ("a")])).1 = true :=
  claim_C3_acyclic_guarded _
    (ReachesGuarded.step initFS (Cmd.mkdir [str ("mkdir"), str ("a")])
      ReachesGuarded.init trivial)

/-! ## C6: the root is protected -/

/-- Frame part of a `deep_copy` footprint: growth, cursor, and the
prefix below `N` untouched (no assumption on the destination). -/
def DCFrame (fs fs2 : FS) (N : Nat) : Prop :=
  fs.nodes.length ≤ fs2.nodes.length ∧ fs2.current = fs.current ∧
  (∀ i, i < N → nodeAt fs2 i = nodeAt fs i)

theorem DCFrame_refl (fs : FS) (N : Nat) : DCFrame fs fs N :=
  ⟨le_refl _, rfl, fun _ _ => rfl⟩

theorem DCFrame_trans (fs fs2 fs3 : FS) (N : Nat)
    (h1 : DCFrame fs fs2 N) (h2 : DCFrame fs2 fs3 N) : DCFrame fs fs3 N :=
  ⟨le_trans h1.1 h2.1, by rw [h2.2.1, h1.2.1],
   fun i hi => by rw [h2.2.2 i hi, h1.2.2 i hi]⟩

theorem DCFrame_alloc (fs : FS) (n : Node) (N : Nat) (hN : N ≤ fs.nodes.length) :
    DCFrame fs (allocNode fs n) N := by
  refine ⟨by simp [length_allocNode], by simp [allocNode], fun i hi => ?_⟩
  rw [nodeAt_allocNode, if_neg (by omega)]

theorem DCFrame_modify (fs : FS) (j : Nat) (f : Node → Node) (N : Nat)
    (hj : N ≤ j) : DCFrame fs (modifyNode fs j f) N := by
  refine ⟨by rw [length_modifyNode], by rw [current_modifyNode], fun i hi => ?_⟩
  rw [nodeAt_modifyNode, if_neg (by omega)]

theorem DCFrame_addChild (fs : FS) (p c : Nat) (N : Nat)
    (hp : N ≤ p) (hc : N ≤ c) : DCFrame fs (addChild fs p c) N := by
  show DCFrame fs (setChildF (setNextF fs c (nodeAt fs p).child) p (some c)) N
  refine DCFrame_trans fs (setNextF fs c (nodeAt fs p).child) _ N ?_ ?_
  · exact DCFrame_modify fs c _ N hc
  · exact DCFrame_modify _ p _ N hp

theorem deep_copy_frame : ∀ fuel : Nat,
    (∀ fs nodeId np N, N ≤ fs.nodes.length →
      DCFrame fs (deep_copyF fuel fs nodeId np).1 N) ∧
    (∀ fs c cid N, N ≤ fs.nodes.length → N ≤ cid →
      DCFrame fs (deep_copyChain fuel fs c cid) N) := by
  intro fuel
  induction fuel with
  | zero =>
    exact ⟨fun fs nodeId np N hN => DCFrame_refl fs N,
           fun fs c cid N hN _ => DCFrame_refl fs N⟩
  | succ f ih =>
    obtain ⟨ihF, ihC⟩ := ih
    constructor
    · intro fs nodeId np N hN
      have heq : (deep_copyF (f + 1) fs nodeId np).1 =
          deep_copyChain f
            (allocNode fs
              { name := (nodeAt fs nodeId).name, isFile := (nodeAt fs nodeId).isFile,
                parent := np, child := none, next := none,
                content := if (nodeAt fs nodeId).isFile then
                  some (((nodeAt fs nodeId).content).getD []) else none })
            (nodeAt fs nodeId).child fs.nodes.length := rfl
      rw [heq]
      refine DCFrame_trans fs
        (allocNode fs
          { name := (nodeAt fs nodeId).name, isFile := (nodeAt fs nodeId).isFile,
            parent := np, child := none, next := none,
            content := if (nodeAt fs nodeId).isFile then
              some (((nodeAt fs nodeId).content).getD []) else none })
        _ N (DCFrame_alloc fs _ N hN) ?_
      exact ihC _ _ fs.nodes.length N (by rw [length_allocNode]; omega) hN
    · intro fs c cid N hN hcN
      cases c with
      | none => exact DCFrame_refl fs N
      | some ch =>
        have heq : deep_copyChain (f + 1) fs (some ch) cid =
            deep_copyChain f
              (addChild (deep_copyF f fs ch (some cid)).1 cid
                (deep_copyF f fs ch (some cid)).2)
              (nodeAt (addChild (deep_copyF f fs ch (some cid)).1 cid
                (deep_copyF f fs ch (some cid)).2) ch).next cid := rfl
        rw [heq]
        have h1 : DCFrame fs (deep_copyF f fs ch (some cid)).1 N :=
          ihF fs ch (some cid) N hN
        have h2 : DCFrame (deep_copyF f fs ch (some cid)).1
            (addChild (deep_copyF f fs ch (some cid)).1 cid
              (deep_copyF f fs ch (some cid)).2) N := by
          refine DCFrame_addChild _ cid _ N hcN ?_
          rw [deep_copyF_snd]
          exact hN
        have hlen1 := h1.1
        have hlen2 := h2.1
        refine DCFrame_trans fs _ _ N (DCFrame_trans fs _ _ N h1 h2) ?_
        exact ihC _ _ cid N (by omega) hcN

/-- The facts C6 asserts about node `0`. -/
def RootOk (fs : FS) : Prop :=
  0 < fs.nodes.length ∧ (nodeAt fs 0).name = str ("root") ∧
  (nodeAt fs 0).isFile = false ∧ (nodeAt fs 0).parent = none

/-- `name`, `isFile` and `parent` agree. -/
def Keep3 (a b : Node) : Prop :=
  b.name = a.name ∧ b.isFile = a.isFile ∧ b.parent = a.parent

theorem Keep3_refl (a : Node) : Keep3 a a := ⟨rfl, rfl, rfl⟩

theorem Keep3_trans (a b c : Node) (h1 : Keep3 a b) (h2 : Keep3 b c) : Keep3 a c :=
  ⟨by rw [h2.1, h1.1], by rw [h2.2.1, h1.2.1], by rw [h2.2.2, h1.2.2]⟩

theorem rootOk_of (fs fs2 : FS) (hl : fs.nodes.length ≤ fs2.nodes.length)
    (hk : Keep3 (nodeAt fs 0) (nodeAt fs2 0)) (h : RootOk fs) : RootOk fs2 :=
  ⟨lt_of_lt_of_le h.1 hl, by rw [hk.1, h.2.1], by rw [hk.2.1, h.2.2.1],
   by rw [hk.2.2, h.2.2.2]⟩

theorem keep3_modify_childnext (fs : FS) (j : Nat) (f : Node → Node)
    (hf : ∀ n, (f n).name = n.name ∧ (f n).isFile = n.isFile ∧ (f n).parent = n.parent)
    (i : Nat) : Keep3 (nodeAt fs i) (nodeAt (modifyNode fs j f) i) := by
  rw [nodeAt_modifyNode]
  by_cases hij : i = j
  · rw [if_pos hij]
    cases hj : fs.nodes[j]? with
    | none => exact Keep3_refl _
    | some n =>
      have hni : nodeAt fs i = n := by unfold nodeAt; rw [hij, hj]; rfl
      rw [hni]
      exact ⟨(hf n).1, (hf n).2.1, (hf n).2.2⟩
  · rw [if_neg hij]
    exact Keep3_refl _

theorem keep3_modify_ne (fs : FS) (j : Nat) (f : Node → Node) (i : Nat)
    (hne : i ≠ j) : Keep3 (nodeAt fs i) (nodeAt (modifyNode fs j f) i) := by
  rw [nodeAt_modifyNode, if_neg hne]
  exact Keep3_refl _

theorem keep3_setChildF (fs : FS) (j : Nat) (v : Option Nat) (i : Nat) :
    Keep3 (nodeAt fs i) (nodeAt (setChildF fs j v) i) := by
  unfold setChildF
  exact keep3_modify_childnext fs j (fun n => { n with child := v })
    (fun n => ⟨rfl, rfl, rfl⟩) i

theorem keep3_setNextF (fs : FS) (j : Nat) (v : Option Nat) (i : Nat) :
    Keep3 (nodeAt fs i) (nodeAt (setNextF fs j v) i) := by
  unfold setNextF
  exact keep3_modify_childnext fs j (fun n => { n with next := v })
    (fun n => ⟨rfl, rfl, rfl⟩) i

theorem keep3_addChild (fs : FS) (p c i : Nat) :
    Keep3 (nodeAt fs i) (nodeAt (addChild fs p c) i) := by
  show Keep3 (nodeAt fs i) (nodeAt (setChildF (setNextF fs c (nodeAt fs p).child) p (some c)) i)
  exact Keep3_trans _ _ _ (keep3_setNextF fs c _ i)
    (keep3_setChildF _ p (some c) i)

theorem keep3_unlinkChild (fs : FS) (p t i : Nat) :
    Keep3 (nodeAt fs i) (nodeAt (unlinkChild fs p t) i) := by
  unfold unlinkChild
  split
  · exact keep3_setChildF fs p _ i
  · split
    · exact keep3_setNextF fs _ _ i
    · exact Keep3_refl _

theorem keep3_allocNode (fs : FS) (n : Node) (h0 : 0 < fs.nodes.length) :
    Keep3 (nodeAt fs 0) (nodeAt (allocNode fs n) 0) := by
  rw [nodeAt_allocNode, if_neg (by omega)]
  exact Keep3_refl _

theorem rootOk_mkdirCore (fs : FS) (target : Nat) (nm : Str) (h : RootOk fs) :
    RootOk (mkdirCore fs target nm).1 := by
  unfold mkdirCore
  split
  · exact h
  · refine rootOk_of fs _ ?_ ?_ h
    · show fs.nodes.length ≤ (addChild (allocNode fs _) target fs.nodes.length).nodes.length
      unfold addChild
      rw [length_setChildF, length_setNextF, length_allocNode]
      omega
    · exact Keep3_trans _ _ _ (keep3_allocNode fs _ h.1) (keep3_addChild _ target _ 0)

theorem rootOk_touchCore (fs : FS) (target : Nat) (nm : Str) (h : RootOk fs) :
    RootOk (touchCore fs target nm).1 := by
  unfold touchCore
  split
  · exact h
  · split
    · exact h
    · refine rootOk_of fs _ ?_ ?_ h
      · show fs.nodes.length ≤
          (addChild (allocNode fs _) target fs.nodes.length).nodes.length
        unfold addChild
        rw [length_setChildF, length_setNextF, length_allocNode]
        omega
      · exact Keep3_trans _ _ _ (keep3_allocNode fs _ h.1) (keep3_addChild _ target _ 0)

theorem rootOk_setContentF (fs : FS) (t : Nat) (v : Option (List Str))
    (hfile : (nodeAt fs t).isFile = true) (h : RootOk fs) :
    RootOk (setContentF fs t v) := by
  have ht : (0 : Nat) ≠ t := by
    intro he
    rw [← he, h.2.2.1] at hfile
    cases hfile
  refine rootOk_of fs _ (by rw [length_setContentF]) ?_ h
  unfold setContentF
  exact keep3_modify_ne fs t _ 0 ht

theorem rootOk_setNameF_ne (fs : FS) (t : Nat) (v : Str) (ht : (0 : Nat) ≠ t)
    (h : RootOk fs) : RootOk (setNameF fs t v) := by
  refine rootOk_of fs _ (by rw [length_setNameF]) ?_ h
  unfold setNameF
  exact keep3_modify_ne fs t _ 0 ht

theorem rootOk_unlinkChild (fs : FS) (p t : Nat) (h : RootOk fs) :
    RootOk (unlinkChild fs p t) :=
  rootOk_of fs _ (by rw [length_unlinkChild]) (keep3_unlinkChild fs p t 0) h

set_option maxHeartbeats 1000000 in
theorem rootOk_step (fs : FS) (c : Cmd) (h : RootOk fs) : RootOk (step fs c).1 := by
  cases c with
  | mkdir args =>
    rcases args with _ | ⟨a0, _ | ⟨a1, _ | ⟨a2, _ | ⟨a3, rest⟩⟩⟩⟩
    · exact h
    · exact h
    · exact rootOk_mkdirCore fs fs.current a1 h
    · show RootOk
        ((match get_node_by_path fs a1 with
          | none => (fs, some Err.notFoundOrNotDir)
          | some t =>
            if (nodeAt fs t).isFile = true then (fs, some Err.notFoundOrNotDir)
            else mkdirCore fs t a2).1)
      cases hres : get_node_by_path fs a1 with
      | none => exact h
      | some t =>
        show RootOk
          ((if (nodeAt fs t).isFile = true then (fs, some Err.notFoundOrNotDir)
            else mkdirCore fs t a2).1)
        split
        · exact h
        · exact rootOk_mkdirCore fs t a2 h
    · exact h
  | touch args =>
    rcases args with _ | ⟨a0, _ | ⟨a1, _ | ⟨a2, _ | ⟨a3, rest⟩⟩⟩⟩
    · exact h
    · exact h
    · exact rootOk_touchCore fs fs.current a1 h
    · show RootOk
        ((match get_node_by_path fs a1 with
          | none => (fs, some Err.notFoundOrNotDir)
          | some t =>
            if (nodeAt fs t).isFile = true then (fs, some Err.notFoundOrNotDir)
            else touchCore fs t a2).1)
      cases hres : get_node_by_path fs a1 with
      | none => exact h
      | some t =>
        show RootOk
          ((if (nodeAt fs t).isFile = true then (fs, some Err.notFoundOrNotDir)
            else touchCore fs t a2).1)
        split
        · exact h
        · exact rootOk_touchCore fs t a2 h
    · exact h
  | cd args =>
    rcases args with _ | ⟨a0, _ | ⟨a1, _ | ⟨a2, rest⟩⟩⟩
    · exact h
    · exact h
    · show RootOk
        ((match get_node_by_path fs a1 with
          | none => (fs, some Err.notFoundOrNotDir)
          | some t =>
            if (nodeAt fs t).isFile = true then (fs, some Err.notFoundOrNotDir)
            else ({ fs with current := t }, none)).1)
      cases hres : get_node_by_path fs a1 with
      | none => exact h
      | some t =>
        show RootOk
          ((if (nodeAt fs t).isFile = true then (fs, some Err.notFoundOrNotDir)
            else ({ fs with current := t }, none)).1)
        split
        · exact h
        · exact rootOk_of fs _ (le_refl _) (Keep3_refl _) h
    · exact h
  | rm args =>
    rcases args with _ | ⟨a0, _ | ⟨a1, _ | ⟨a2, rest⟩⟩⟩
    · exact h
    · exact h
    · show RootOk
        ((match get_node_by_path fs a1 with
          | none => (fs, some Err.notFound)
          | some t =>
            match (nodeAt fs t).parent with
            | none => (fs, some Err.rootProtected)
            | some p => (unlinkChild fs p t, none)).1)
      cases hres : get_node_by_path fs a1 with
      | none => exact h
      | some t =>
        show RootOk
          ((match (nodeAt fs t).parent with
            | none => (fs, some Err.rootProtected)
            | some p => (unlinkChild fs p t, none)).1)
        cases hp : (nodeAt fs t).parent with
        | none => exact h
        | some p => exact rootOk_unlinkChild fs p t h
    · exact h
  | rename args =>
    rcases args with _ | ⟨a0, _ | ⟨a1, _ | ⟨a2, _ | ⟨a3, rest⟩⟩⟩⟩
    · exact h
    · exact h
    · exact h
    · show RootOk
        ((match get_node_by_path fs a1 with
          | none => (fs, some Err.notFound)
          | some t =>
            match (nodeAt fs t).parent with
            | none => (fs, some Err.rootProtected)
            | some p =>
              if (find_child fs p a2).isSome = true then (fs, some Err.duplicateName)
              else (setNameF fs t a2, none)).1)
      cases hres : get_node_by_path fs a1 with
      | none => exact h
      | some t =>
        show RootOk
          ((match (nodeAt fs t).parent with
            | none => (fs, some Err.rootProtected)
            | some p =>
              if (find_child fs p a2).isSome = true then (fs, some Err.duplicateName)
              else (setNameF fs t a2, none)).1)
        cases hp : (nodeAt fs t).parent with
        | none => exact h
        | some p =>
          show RootOk
            ((if (find_child fs p a2).isSome = true then (fs, some Err.duplicateName)
              else (setNameF fs t a2, none)).1)
          split
          · exact h
          · refine rootOk_setNameF_ne fs t a2 ?_ h
            intro he
            rw [← he, h.2.2.2] at hp
            cases hp
    · exact h
  | nwfiletxt args inp =>
    rcases args with _ | ⟨a0, _ | ⟨a1, _ | ⟨a2, rest⟩⟩⟩
    · exact h
    · exact h
    · show RootOk
        ((match get_node_by_path fs a1 with
          | none => (fs, some Err.notAFile)
          | some t =>
            if ¬ (nodeAt fs t).isFile = true then (fs, some Err.notAFile)
            else (setContentF fs t (some inp), none)).1)
      cases hres : get_node_by_path fs a1 with
      | none => exact h
      | some t =>
        show RootOk
          ((if ¬ (nodeAt fs t).isFile = true then (fs, some Err.notAFile)
            else (setContentF fs t (some inp), none)).1)
        split
        · exact h
        · next hnn => exact rootOk_setContentF fs t _ (not_not.mp hnn) h
    · exact h
  | appendtxt args inp =>
    rcases args with _ | ⟨a0, _ | ⟨a1, _ | ⟨a2, rest⟩⟩⟩
    · exact h
    · exact h
    · show RootOk
        ((match get_node_by_path fs a1 with
          | none => (fs, some Err.notAFile)
          | some t =>
            if ¬ (nodeAt fs t).isFile = true then (fs, some Err.notAFile)
            else (setContentF fs t
              (some (((nodeAt fs t).content).getD [] ++ inp)), none)).1)
      cases hres : get_node_by_path fs a1 with
      | none => exact h
      | some t =>
        show RootOk
          ((if ¬ (nodeAt fs t).isFile = true then (fs, some Err.notAFile)
            else (setContentF fs t
              (some (((nodeAt fs t).content).getD [] ++ inp)), none)).1)
        split
        · exact h
        · next hnn => exact rootOk_setContentF fs t _ (not_not.mp hnn) h
    · exact h
  | editline args =>
    rcases args with _ | ⟨a0, _ | ⟨a1, _ | ⟨a2, _ | ⟨a3, rest⟩⟩⟩⟩
    · exact h
    · exact h
    · exact h
    · exact h
    · show RootOk
        ((match get_node_by_path fs a1 with
          | none => (fs, some Err.notAFile)
          | some t =>
            if ¬ (nodeAt fs t).isFile = true then (fs, some Err.notAFile)
            else
              match parseInt a2 with
              | none => (fs, some Err.invalidArgument)
              | some ln =>
                if ln < 1 ∨ ln > ((((nodeAt fs t).content).getD []).length : Int) then
                  (fs, some Err.invalidArgument)
                else
                  (setContentF fs t
                    (some ((((nodeAt fs t).content).getD []).set (ln - 1).toNat
                      (joinSpace (a3 :: rest)))), none)).1)
      cases hres : get_node_by_path fs a1 with
      | none => exact h
      | some t =>
        show RootOk
          ((if ¬ (nodeAt fs t).isFile = true then (fs, some Err.notAFile)
            else
              match parseInt a2 with
              | none => (fs, some Err.invalidArgument)
              | some ln =>
                if ln < 1 ∨ ln > ((((nodeAt fs t).content).getD []).length : Int) then
                  (fs, some Err.invalidArgument)
                else
                  (setContentF fs t
                    (some ((((nodeAt fs t).content).getD []).set (ln - 1).toNat
                      (joinSpace (a3 :: rest)))), none)).1)
        split
        · exact h
        · next hnn =>
          cases hpi : parseInt a2 with
          | none => exact h
          | some ln =>
            show RootOk
              ((if ln < 1 ∨ ln > ((((nodeAt fs t).content).getD []).length : Int) then
                  (fs, some Err.invalidArgument)
                else
                  (setContentF fs t
                    (some ((((nodeAt fs t).content).getD []).set (ln - 1).toNat
                      (joinSpace (a3 :: rest)))), none)).1)
            split
            · exact h
            · exact rootOk_setContentF fs t _ (not_not.mp hnn) h
  | deline args =>
    rcases args with _ | ⟨a0, _ | ⟨a1, _ | ⟨a2, _ | ⟨a3, rest⟩⟩⟩⟩
    · exact h
    · exact h
    · exact h
    · show RootOk
        ((match get_node_by_path fs a1 with
          | none => (fs, some Err.notAFile)
          | some t =>
            if ¬ (nodeAt fs t).isFile = true then (fs, some Err.notAFile)
            else
              match parseInt a2 with
              | none => (fs, some Err.invalidArgument)
              | some ln =>
                if ln < 1 ∨ ln > ((((nodeAt fs t).content).getD []).length : Int) then
                  (fs, some Err.invalidArgument)
                else
                  (setContentF fs t
                    (some ((((nodeAt fs t).content).getD []).eraseIdx (ln - 1).toNat)),
                    none)).1)
      cases hres : get_node_by_path fs a1 with
      | none => exact h
      | some t =>
        show RootOk
          ((if ¬ (nodeAt fs t).isFile = true then (fs, some Err.notAFile)
            else
              match parseInt a2 with
              | none => (fs, some Err.invalidArgument)
              | some ln =>
                if ln < 1 ∨ ln > ((((nodeAt fs t).content).getD []).length : Int) then
                  (fs, some Err.invalidArgument)
                else
                  (setContentF fs t
                    (some ((((nodeAt fs t).content).getD []).eraseIdx (ln - 1).toNat)),
                    none)).1)
        split
        · exact h
        · next hnn =>
          cases hpi : parseInt a2 with
          | none => exact h
          | some ln =>
            show RootOk
              ((if ln < 1 ∨ ln > ((((nodeAt fs t).content).getD []).length : Int) then
                  (fs, some Err.invalidArgument)
                else
                  (setContentF fs t
                    (some ((((nodeAt fs t).content).getD []).eraseIdx (ln - 1).toNat)),
                    none)).1)
            split
            · exact h
            · exact rootOk_setContentF fs t _ (not_not.mp hnn) h
    · exact h
  | cp args =>
    rcases args with _ | ⟨a0, _ | ⟨a1, _ | ⟨a2, _ | ⟨a3, rest⟩⟩⟩⟩
    · exact h
    · exact h
    · exact h
    · show RootOk
        ((match get_node_by_path fs a1 with
          | none => (fs, some Err.notFound)
          | some src =>
            match get_node_by_path fs a2 with
            | some dst =>
              if (nodeAt fs dst).isFile = true then (fs, some Err.destIsFile)
              else if (find_child fs dst (nodeAt fs src).name).isSome = true then
                (fs, some Err.destDuplicate)
              else
                (addChild (deep_copyF (dcFuel fs) fs src (some dst)).1 dst
                  (deep_copyF (dcFuel fs) fs src (some dst)).2, none)
            | none =>
              match get_node_by_path fs (destSplit a2).1 with
              | none => (fs, some Err.destParentInvalid)
              | some parentDst =>
                if (nodeAt fs parentDst).isFile = true then
                  (fs, some Err.destParentInvalid)
                else if (find_child fs parentDst (destSplit a2).2).isSome = true then
                  (fs, some Err.destDuplicate)
                else
                  (addChild
                    (setNameF (deep_copyF (dcFuel fs) fs src (some parentDst)).1
                      (deep_copyF (dcFuel fs) fs src (some parentDst)).2
                      (destSplit a2).2)
                    parentDst
                    (deep_copyF (dcFuel fs) fs src (some parentDst)).2, none)).1)
      cases hsrc : get_node_by_path fs a1 with
      | none => exact h
      | some src =>
        cases hdst : get_node_by_path fs a2 with
        | some dst =>
          show RootOk
            ((if (nodeAt fs dst).isFile = true then (fs, some Err.destIsFile)
              else if (find_child fs dst (nodeAt fs src).name).isSome = true then
                (fs, some Err.destDuplicate)
              else
                (addChild (deep_copyF (dcFuel fs) fs src (some dst)).1 dst
                  (deep_copyF (dcFuel fs) fs src (some dst)).2, none)).1)
          split
          · exact h
          · split
            · exact h
            · have hdf : DCFrame fs (deep_copyF (dcFuel fs) fs src (some dst)).1 1 :=
                (deep_copy_frame (dcFuel fs)).1 fs src (some dst) 1 h.1
              refine rootOk_of fs _ ?_ ?_ h
              · show fs.nodes.length ≤ (addChild _ dst _).nodes.length
                unfold addChild
                rw [length_setChildF, length_setNextF]
                exact hdf.1
              · refine Keep3_trans _ _ _ ?_ (keep3_addChild _ dst _ 0)
                rw [hdf.2.2 0 (by omega)]
                exact Keep3_refl _
        | none =>
          show RootOk
            ((match get_node_by_path fs (destSplit a2).1 with
              | none => (fs, some Err.destParentInvalid)
              | some parentDst =>
                if (nodeAt fs parentDst).isFile = true then
                  (fs, some Err.destParentInvalid)
                else if (find_child fs parentDst (destSplit a2).2).isSome = true then
                  (fs, some Err.destDuplicate)
                else
                  (addChild
                    (setNameF (deep_copyF (dcFuel fs) fs src (some parentDst)).1
                      (deep_copyF (dcFuel fs) fs src (some parentDst)).2
                      (destSplit a2).2)
                    parentDst
                    (deep_copyF (dcFuel fs) fs src (some parentDst)).2, none)).1)
          cases hpd : get_node_by_path fs (destSplit a2).1 with
          | none => exact h
          | some parentDst =>
            show RootOk
              ((if (nodeAt fs parentDst).isFile = true then
                  (fs, some Err.destParentInvalid)
                else if (find_child fs parentDst (destSplit a2).2).isSome = true then
                  (fs, some Err.destDuplicate)
                else
                  (addChild
                    (setNameF (deep_copyF (dcFuel fs) fs src (some parentDst)).1
                      (deep_copyF (dcFuel fs) fs src (some parentDst)).2
                      (destSplit a2).2)
                    parentDst
                    (deep_copyF (dcFuel fs) fs src (some parentDst)).2, none)).1)
            split
            · exact h
            · split
              · exact h
              · have hdf : DCFrame fs
                    (deep_copyF (dcFuel fs) fs src (some parentDst)).1 1 :=
                  (deep_copy_frame (dcFuel fs)).1 fs src (some parentDst) 1 h.1
                have h1 := h.1
                have hcid0 : (0 : Nat) ≠
                    (deep_copyF (dcFuel fs) fs src (some parentDst)).2 := by
                  rw [deep_copyF_snd]
                  omega
                refine rootOk_of fs _ ?_ ?_ h
                · show fs.nodes.length ≤ (addChild _ parentDst _).nodes.length
                  unfold addChild
                  rw [length_setChildF, length_setNextF, length_setNameF]
                  exact hdf.1
                · refine Keep3_trans _ _ _ ?_ (keep3_addChild _ parentDst _ 0)
                  refine Keep3_trans (nodeAt fs 0)
                    (nodeAt (deep_copyF (dcFuel fs) fs src (some parentDst)).1 0) _ ?_ ?_
                  · rw [hdf.2.2 0 (by omega)]
                    exact Keep3_refl _
                  · show Keep3 _ (nodeAt (setNameF _ _ _) 0)
                    unfold setNameF
                    exact keep3_modify_ne _ _ _ 0 hcid0
    · exact h
  | mv args =>
    rcases args with _ | ⟨a0, _ | ⟨a1, _ | ⟨a2, _ | ⟨a3, rest⟩⟩⟩⟩
    · exact h
    · exact h
    · exact h
    · show RootOk
        ((match get_node_by_path fs a1 with
          | none => (fs, some Err.notFound)
          | some src =>
            match (nodeAt fs src).parent with
            | none => (fs, some Err.rootProtected)
            | some parent =>
              match get_node_by_path fs a2 with
              | some dst =>
                if (nodeAt fs dst).isFile = true then (fs, some Err.destIsFile)
                else if (find_child fs dst (nodeAt fs src).name).isSome = true then
                  (fs, some Err.destDuplicate)
                else
                  (setChildF
                    (setNextF (setParentF (unlinkChild fs parent src) src (some dst))
                      src
                      (nodeAt (setParentF (unlinkChild fs parent src) src (some dst))
                        dst).child)
                    dst (some src), none)
              | none =>
                match get_node_by_path fs (destSplit a2).1 with
                | none => (fs, some Err.destParentInvalid)
                | some parentDst =>
                  if (nodeAt fs parentDst).isFile = true then
                    (fs, some Err.destParentInvalid)
                  else if (find_child fs parentDst (destSplit a2).2).isSome = true then
                    (fs, some Err.destDuplicate)
                  else
                    (setChildF
                      (setNextF
                        (setNameF
                          (setParentF (unlinkChild fs parent src) src (some parentDst))
                          src (destSplit a2).2)
                        src
                        (nodeAt
                          (setNameF
                            (setParentF (unlinkChild fs parent src) src (some parentDst))
                            src (destSplit a2).2)
                          parentDst).child)
                      parentDst (some src), none)).1)
      cases hsrc : get_node_by_path fs a1 with
      | none => exact h
      | some src =>
        show RootOk
          ((match (nodeAt fs src).parent with
            | none => (fs, some Err.rootProtected)
            | some parent =>
              match get_node_by_path fs a2 with
              | some dst =>
                if (nodeAt fs dst).isFile = true then (fs, some Err.destIsFile)
                else if (find_child fs dst (nodeAt fs src).name).isSome = true then
                  (fs, some Err.destDuplicate)
                else
                  (setChildF
                    (setNextF (setParentF (unlinkChild fs parent src) src (some dst))
                      src
                      (nodeAt (setParentF (unlinkChild fs parent src) src (some dst))
                        dst).child)
                    dst (some src), none)
              | none =>
                match get_node_by_path fs (destSplit a2).1 with
                | none => (fs, some Err.destParentInvalid)
                | some parentDst =>
                  if (nodeAt fs parentDst).isFile = true then
                    (fs, some Err.destParentInvalid)
                  else if (find_child fs parentDst (destSplit a2).2).isSome = true then
                    (fs, some Err.destDuplicate)
                  else
                    (setChildF
                      (setNextF
                        (setNameF
                          (setParentF (unlinkChild fs parent src) src (some parentDst))
                          src (destSplit a2).2)
                        src
                        (nodeAt
                          (setNameF
                            (setParentF (unlinkChild fs parent src) src (some parentDst))
                            src (destSplit a2).2)
                          parentDst).child)
                      parentDst (some src), none)).1)
        cases hp : (nodeAt fs src).parent with
        | none => exact h
        | some parent =>
          have hs0 : (0 : Nat) ≠ src := by
            intro he
            rw [← he, h.2.2.2] at hp
            cases hp
          cases hdst : get_node_by_path fs a2 with
          | some dst =>
            show RootOk
              ((if (nodeAt fs dst).isFile = true then (fs, some Err.destIsFile)
                else if (find_child fs dst (nodeAt fs src).name).isSome = true then
                  (fs, some Err.destDuplicate)
                else
                  (setChildF
                    (setNextF (setParentF (unlinkChild fs parent src) src (some dst))
                      src
                      (nodeAt (setParentF (unlinkChild fs parent src) src (some dst))
                        dst).child)
                    dst (some src), none)).1)
            split
            · exact h
            · split
              · exact h
              · refine rootOk_of fs _ ?_ ?_ h
                · rw [length_setChildF, length_setNextF, length_setParentF,
                    length_unlinkChild]
                · refine Keep3_trans _ _ _ (keep3_unlinkChild fs parent src 0) ?_
                  refine Keep3_trans _
                    (nodeAt (setParentF (unlinkChild fs parent src) src (some dst)) 0)
                    _ ?_ ?_
                  · show Keep3 _ (nodeAt (setParentF _ src (some dst)) 0)
                    unfold setParentF
                    exact keep3_modify_ne _ src _ 0 hs0
                  · exact Keep3_trans _ _ _ (keep3_setNextF _ src _ 0)
                      (keep3_setChildF _ dst _ 0)
          | none =>
            show RootOk
              ((match get_node_by_path fs (destSplit a2).1 with
                | none => (fs, some Err.destParentInvalid)
                | some parentDst =>
                  if (nodeAt fs parentDst).isFile = true then
                    (fs, some Err.destParentInvalid)
                  else if (find_child fs parentDst (destSplit a2).2).isSome = true then
                    (fs, some Err.destDuplicate)
                  else
                    (setChildF
                      (setNextF
                        (setNameF
                          (setParentF (unlinkChild fs parent src) src (some parentDst))
                          src (destSplit a2).2)
                        src
                        (nodeAt
                          (setNameF
                            (setParentF (unlinkChild fs parent src) src (some parentDst))
                            src (destSplit a2).2)
                          parentDst).child)
                      parentDst (some src), none)).1)
            cases hpd : get_node_by_path fs (destSplit a2).1 with
            | none => exact h
            | some parentDst =>
              show RootOk
                ((if (nodeAt fs parentDst).isFile = true then
                    (fs, some Err.destParentInvalid)
                  else if (find_child fs parentDst (destSplit a2).2).isSome = true then
                    (fs, some Err.destDuplicate)
                  else
                    (setChildF
                      (setNextF
                        (setNameF
                          (setParentF (unlinkChild fs parent src) src (some parentDst))
                          src (destSplit a2).2)
                        src
                        (nodeAt
                          (setNameF
                            (setParentF (unlinkChild fs parent src) src (some parentDst))
                            src (destSplit a2).2)
                          parentDst).child)
                      parentDst (some src), none)).1)
              split
              · exact h
              · split
                · exact h
                · refine rootOk_of fs _ ?_ ?_ h
                  · rw [length_setChildF, length_setNextF, length_setNameF,
                      length_setParentF, length_unlinkChild]
                  · refine Keep3_trans _ _ _ (keep3_unlinkChild fs parent src 0) ?_
                    refine Keep3_trans _
                      (nodeAt (setParentF (unlinkChild fs parent src) src
                        (some parentDst)) 0) _ ?_ ?_
                    · show Keep3 _ (nodeAt (setParentF _ src (some parentDst)) 0)
                      unfold setParentF
                      exact keep3_modify_ne _ src _ 0 hs0
                    · refine Keep3_trans _
                        (nodeAt (setNameF (setParentF (unlinkChild fs parent src) src
                          (some parentDst)) src (destSplit a2).2) 0) _ ?_ ?_
                      · show Keep3 _ (nodeAt (setNameF _ src _) 0)
                        unfold setNameF
                        exact keep3_modify_ne _ src _ 0 hs0
                      · exact Keep3_trans _ _ _ (keep3_setNextF _ src _ 0)
                          (keep3_setChildF _ parentDst _ 0)
    · exact h

theorem rootOk_init : RootOk initFS := by
  refine ⟨by decide, by decide, by decide, by decide⟩

theorem rootOk_exec (cmds : List Cmd) : RootOk (execList initFS cmds) := by
  have hgen : ∀ (cs : List Cmd) (fs : FS), RootOk fs → RootOk (execList fs cs) := by
    intro cs
    induction cs with
    | nil => intro fs h; exact h
    | cons c rest ih =>
      intro fs h
      exact ih (step fs c).1 (rootOk_step fs c h)
  exact hgen cmds initFS rootOk_init

/-- C6: the root is never deleted, renamed, or moved.  In every state
reached from the initial one by any command sequence, node 0 is still
present, still named `root`, still a directory, and still parentless; and
`rm`, `rename`, or `mv` applied to any path that resolves to the root
fails with the root-protection error, leaving the state unchanged. -/
theorem claim_C6_root_protected (cmds : List Cmd) (fs : FS)
    (hfs : fs = execList initFS cmds) :
    ((nodeAt fs 0).name = str ("root") ∧ (nodeAt fs 0).isFile = false ∧
      (nodeAt fs 0).parent = none ∧ 0 < fs.nodes.length) ∧
    ∀ p : Str, get_node_by_path fs p = some 0 →
      (∀ a : Str, rm_command fs [a, p] = (fs, some Err.rootProtected)) ∧
      (∀ a nm : Str, rename_command fs [a, p, nm] = (fs, some Err.rootProtected)) ∧
      (∀ a d : Str, mv_command fs [a, p, d] = (fs, some Err.rootProtected)) := by
  subst hfs
  have h := rootOk_exec cmds
  refine ⟨⟨h.2.1, h.2.2.1, h.2.2.2, h.1⟩,
    fun p hp => ⟨fun a => ?_, fun a nm => ?_, fun a d => ?_⟩⟩
  · have hred : rm_command (execList initFS cmds) [a, p] =
        (match get_node_by_path (execList initFS cmds) p with
         | none => (execList initFS cmds, some Err.notFound)
         | some t =>
           match (nodeAt (execList initFS cmds) t).parent with
           | none => (execList initFS cmds, some Err.rootProtected)
           | some q => (unlinkChild (execList initFS cmds) q t, none)) := rfl
    simp only [hred, hp, h.2.2.2]
  · have hred : rename_command (execList initFS cmds) [a, p, nm] =
        (match get_node_by_path (execList initFS cmds) p with
         | none => (execList initFS cmds, some Err.notFound)
         | some t =>
           match (nodeAt (execList initFS cmds) t).parent with
           | none => (execList initFS cmds, some Err.rootProtected)
           | some q =>
             if (find_child (execList initFS cmds) q nm).isSome then
               (execList initFS cmds, some Err.duplicateName)
             else (setNameF (execList initFS cmds) t nm, none)) := rfl
    simp only [hred, hp, h.2.2.2]
  · have hred : mv_command (execList initFS cmds) [a, p, d] =
        (match get_node_by_path (execList initFS cmds) p with
         | none => (execList initFS cmds, some Err.notFound)
         | some src =>
           match (nodeAt (execList initFS cmds) src).parent with
           | none => (execList initFS cmds, some Err.rootProtected)
           | some parent =>
             match get_node_by_path (execList initFS cmds) d with
             | some dst =>
               if (nodeAt (execList initFS cmds) dst).isFile then
                 (execList initFS cmds, some Err.destIsFile)
               else if (find_child (execList initFS cmds) dst
                   (nodeAt (execList initFS cmds) src).name).isSome then
                 (execList initFS cmds, some Err.destDuplicate)
               else
                 (setChildF
                   (setNextF
                     (setParentF (unlinkChild (execList initFS cmds) parent src) src
                       (some dst))
                     src
                     (nodeAt
                       (setParentF (unlinkChild (execList initFS cmds) parent src) src
                         (some dst))
                       dst).child)
                   dst (some src), none)
             | none =>
               match get_node_by_path (execList initFS cmds) (destSplit d).1 with
               | none => (execList initFS cmds, some Err.destParentInvalid)
               | some parentDst =>
                 if (nodeAt (execList initFS cmds) parentDst).isFile then
                   (execList initFS cmds, some Err.destParentInvalid)
                 else if (find_child (execList initFS cmds) parentDst
                     (destSplit d).2).isSome then
                   (execList initFS cmds, some Err.destDuplicate)
                 else
                   (setChildF
                     (setNextF
                       (setNameF
                         (setParentF (unlinkChild (execList initFS cmds) parent src)
                           src (some parentDst))
                         src (destSplit d).2)
                       src
                       (nodeAt
                         (setNameF
                           (setParentF (unlinkChild (execList initFS cmds) parent src)
                             src (some parentDst))
                           src (destSplit d).2)
                         parentDst).child)
                     parentDst (some src), none)) := rfl
    simp only [hred, hp, h.2.2.2]

/-- Witness for C6 in the initial state: removing `/` is refused. -/
theorem claim_C6_root_protected_witness :
    rm_command initFS [str ("rm"), str ("/")] = (initFS, some Err.rootProtected) :=
  ((claim_C6_root_protected [] initFS rfl).2 (str ("/")) (by decide)).1 (str ("rm"))

/-! ## C9: every insertion prepends to the children chain -/

/-- The sibling chain from `c` is complete within `fuel` steps and all
its nodes are allocated. -/
def chainClosed (fs : FS) : Nat → Option Nat → Bool
  | _, none => true
  | 0, some _ => false
  | fuel + 1, some i =>
    decide (i < fs.nodes.length) && chainClosed fs fuel (nodeAt fs i).next

theorem nodeAt_lt_eq (fs : FS) (j : Nat) (hj : j < fs.nodes.length) :
    fs.nodes[j]? = some (nodeAt fs j) := by
  unfold nodeAt
  rw [List.getElem?_eq_getElem hj]
  rfl

theorem nodeAt_modify_self (fs : FS) (j : Nat) (f : Node → Node)
    (hj : j < fs.nodes.length) :
    nodeAt (modifyNode fs j f) j = f (nodeAt fs j) := by
  rw [nodeAt_modifyNode, if_pos rfl, nodeAt_lt_eq fs j hj]

theorem nodeAt_modify_ne (fs : FS) (j : Nat) (f : Node → Node) (i : Nat)
    (h : i ≠ j) : nodeAt (modifyNode fs j f) i = nodeAt fs i := by
  rw [nodeAt_modifyNode, if_neg h]

theorem chainFrom_congr_mem (fs fs2 : FS) :
    ∀ fuel c, (∀ j, j ∈ chainFrom fs fuel c →
      (nodeAt fs2 j).next = (nodeAt fs j).next) →
    chainFrom fs2 fuel c = chainFrom fs fuel c := by
  intro fuel
  induction fuel with
  | zero => intro c _; rfl
  | succ f ih =>
    intro c hmem
    cases c with
    | none => rfl
    | some i =>
      have hi : i ∈ chainFrom fs (f + 1) (some i) := by
        simp [chainFrom]
      simp only [chainFrom, hmem i hi]
      rw [ih (nodeAt fs i).next ?_]
      intro j hj
      exact hmem j (by simp [chainFrom, hj])

theorem chainClosed_mem_lt (fs : FS) :
    ∀ fuel c j, chainClosed fs fuel c = true → j ∈ chainFrom fs fuel c →
      j < fs.nodes.length := by
  intro fuel
  induction fuel with
  | zero => intro c j _ hj; simp [chainFrom] at hj
  | succ f ih =>
    intro c j hcl hj
    cases c with
    | none => simp [chainFrom] at hj
    | some i =>
      simp only [chainClosed, Bool.and_eq_true, decide_eq_true_eq] at hcl
      simp only [chainFrom, List.mem_cons] at hj
      rcases hj with rfl | hj
      · exact hcl.1
      · exact ih (nodeAt fs i).next j hcl.2 hj

theorem chainFrom_fuel_stable (fs : FS) :
    ∀ fuel c, chainClosed fs fuel c = true →
    ∀ fuel2, fuel ≤ fuel2 → chainFrom fs fuel2 c = chainFrom fs fuel c := by
  intro fuel
  induction fuel with
  | zero =>
    intro c hcl fuel2 _
    cases c with
    | none => cases fuel2 <;> rfl
    | some i => simp [chainClosed] at hcl
  | succ f ih =>
    intro c hcl fuel2 h2
    cases c with
    | none => cases fuel2 <;> rfl
    | some i =>
      simp only [chainClosed, Bool.and_eq_true] at hcl
      cases fuel2 with
      | zero => omega
      | succ f2 =>
        simp only [chainFrom]
        rw [ih (nodeAt fs i).next hcl.2 f2 (by omega)]

theorem chainClosed_congr_mem (fs fs2 : FS)
    (hlen : fs.nodes.length ≤ fs2.nodes.length) :
    ∀ fuel c, (∀ j, j ∈ chainFrom fs fuel c →
      (nodeAt fs2 j).next = (nodeAt fs j).next) →
    chainClosed fs fuel c = true → chainClosed fs2 fuel c = true := by
  intro fuel
  induction fuel with
  | zero =>
    intro c _ hcl
    cases c with
    | none => rfl
    | some i => simp [chainClosed] at hcl
  | succ f ih =>
    intro c hmem hcl
    cases c with
    | none => rfl
    | some i =>
      simp only [chainClosed, Bool.and_eq_true, decide_eq_true_eq] at hcl ⊢
      have hi : i ∈ chainFrom fs (f + 1) (some i) := by simp [chainFrom]
      refine ⟨by omega, ?_⟩
      rw [hmem i hi]
      refine ih (nodeAt fs i).next (fun j hj => hmem j ?_) hcl.2
      simp [chainFrom, hj]

/-- The common shape of every insertion: if in state `fsA` the target's
first child is the fresh node, the fresh node's `next` is the target's
old first child, and the old chain is untouched, then the new children
list is the old one with the fresh node prepended. -/
theorem childrenOf_after_insert (fs fsA : FS) (t newId m : Nat)
    (hlen : fs.nodes.length ≤ fsA.nodes.length)
    (hchild : (nodeAt fsA t).child = some newId)
    (hnext : (nodeAt fsA newId).next = (nodeAt fs t).child)
    (hnextsame : ∀ j, j ∈ chainFrom fs m (nodeAt fs t).child →
      (nodeAt fsA j).next = (nodeAt fs j).next)
    (hclosed : chainClosed fs m (nodeAt fs t).child = true)
    (hm : m < fsA.nodes.length) :
    childrenOf fsA t = newId :: chainFrom fs m (nodeAt fs t).child := by
  unfold childrenOf
  rw [hchild]
  cases hA : fsA.nodes.length with
  | zero => omega
  | succ k =>
    simp only [chainFrom, hnext]
    congr 1
    have hclA : chainClosed fsA m (nodeAt fs t).child = true :=
      chainClosed_congr_mem fs fsA hlen m (nodeAt fs t).child hnextsame hclosed
    rw [chainFrom_fuel_stable fsA m (nodeAt fs t).child hclA k (by omega)]
    exact chainFrom_congr_mem fs fsA m (nodeAt fs t).child hnextsame

theorem next_modify_keep (fs : FS) (j : Nat) (f : Node → Node)
    (hf : ∀ n, (f n).next = n.next) (i : Nat) :
    (nodeAt (modifyNode fs j f) i).next = (nodeAt fs i).next := by
  rw [nodeAt_modifyNode]
  by_cases hij : i = j
  · rw [if_pos hij]
    cases hj : fs.nodes[j]? with
    | none => rfl
    | some n =>
      have hni : nodeAt fs i = n := by unfold nodeAt; rw [hij, hj]; rfl
      rw [hni, hf n]
  · rw [if_neg hij]

theorem child_modify_keep (fs : FS) (j : Nat) (f : Node → Node)
    (hf : ∀ n, (f n).child = n.child) (i : Nat) :
    (nodeAt (modifyNode fs j f) i).child = (nodeAt fs i).child := by
  rw [nodeAt_modifyNode]
  by_cases hij : i = j
  · rw [if_pos hij]
    cases hj : fs.nodes[j]? with
    | none => rfl
    | some n =>
      have hni : nodeAt fs i = n := by unfold nodeAt; rw [hij, hj]; rfl
      rw [hni, hf n]
  · rw [if_neg hij]

theorem deep_copyF_grows (f : Nat) (fs : FS) (n : Nat) (np : Option Nat) :
    fs.nodes.length + 1 ≤ (deep_copyF (f + 1) fs n np).1.nodes.length := by
  have heq : (deep_copyF (f + 1) fs n np).1 =
      deep_copyChain f
        (allocNode fs
          { name := (nodeAt fs n).name, isFile := (nodeAt fs n).isFile,
            parent := np, child := none, next := none,
            content := if (nodeAt fs n).isFile then
              some (((nodeAt fs n).content).getD []) else none })
        (nodeAt fs n).child fs.nodes.length := rfl
  rw [heq]
  have hdf := (deep_copy_frame f).2
    (allocNode fs
      { name := (nodeAt fs n).name, isFile := (nodeAt fs n).isFile,
        parent := np, child := none, next := none,
        content := if (nodeAt fs n).isFile then
          some (((nodeAt fs n).content).getD []) else none })
    (nodeAt fs n).child fs.nodes.length 0 (by omega) (by omega)
  have := hdf.1
  rw [length_allocNode] at this
  omega

/-- Insertion of one fresh node below `t` (the `mkdir`/`touch` tail). -/
theorem children_insert_fresh (fs : FS) (t : Nat) (node : Node)
    (ht : t < fs.nodes.length)
    (hclosed : chainClosed fs fs.nodes.length (nodeAt fs t).child = true) :
    childrenOf (addChild (allocNode fs node) t fs.nodes.length) t =
      fs.nodes.length :: childrenOf fs t := by
  have hne : t ≠ fs.nodes.length := by omega
  have hlen1 : (allocNode fs node).nodes.length = fs.nodes.length + 1 :=
    length_allocNode fs node
  refine childrenOf_after_insert fs _ t fs.nodes.length fs.nodes.length ?_ ?_ ?_ ?_
    hclosed ?_
  · show fs.nodes.length ≤ (setChildF (setNextF _ _ _) t _).nodes.length
    rw [length_setChildF, length_setNextF, hlen1]
    omega
  · show (nodeAt (setChildF (setNextF (allocNode fs node) fs.nodes.length
      (nodeAt (allocNode fs node) t).child) t (some fs.nodes.length)) t).child =
      some fs.nodes.length
    unfold setChildF
    rw [nodeAt_modify_self _ t _ (by rw [length_setNextF, hlen1]; omega)]
  · show (nodeAt (setChildF (setNextF (allocNode fs node) fs.nodes.length
      (nodeAt (allocNode fs node) t).child) t (some fs.nodes.length))
      fs.nodes.length).next = (nodeAt fs t).child
    unfold setChildF
    rw [nodeAt_modify_ne _ t _ fs.nodes.length (Ne.symm hne)]
    unfold setNextF
    rw [nodeAt_modify_self _ fs.nodes.length _ (by rw [hlen1]; omega)]
    show (nodeAt (allocNode fs node) t).child = (nodeAt fs t).child
    rw [nodeAt_allocNode, if_neg hne]
  · intro j hj
    have hjlt : j < fs.nodes.length :=
      chainClosed_mem_lt fs fs.nodes.length (nodeAt fs t).child j hclosed hj
    show (nodeAt (setChildF (setNextF (allocNode fs node) fs.nodes.length
      (nodeAt (allocNode fs node) t).child) t (some fs.nodes.length)) j).next =
      (nodeAt fs j).next
    unfold setChildF
    rw [next_modify_keep _ t (fun n => { n with child := some fs.nodes.length })
      (fun n => rfl) j]
    unfold setNextF
    rw [nodeAt_modify_ne _ fs.nodes.length _ j (by omega)]
    rw [nodeAt_allocNode, if_neg (by omega)]
  · show fs.nodes.length < (setChildF (setNextF _ _ _) t _).nodes.length
    rw [length_setChildF, length_setNextF, hlen1]
    omega

/-- The `cp` insertion: the clone is prepended to the destination's
children (resolved-destination form). -/
theorem children_insert_copy (fs : FS) (src dst : Nat)
    (hdlt : dst < fs.nodes.length)
    (hclosed : chainClosed fs fs.nodes.length (nodeAt fs dst).child = true) :
    childrenOf (addChild (deep_copyF (dcFuel fs) fs src (some dst)).1 dst
      (deep_copyF (dcFuel fs) fs src (some dst)).2) dst =
      (deep_copyF (dcFuel fs) fs src (some dst)).2 :: childrenOf fs dst := by
  have hsnd : (deep_copyF (dcFuel fs) fs src (some dst)).2 = fs.nodes.length :=
    deep_copyF_snd _ fs src (some dst)
  have hfu : dcFuel fs = 2 * fs.nodes.length + 1 + 1 := by unfold dcFuel; omega
  have hgrow : fs.nodes.length + 1 ≤
      (deep_copyF (dcFuel fs) fs src (some dst)).1.nodes.length := by
    rw [hfu]
    exact deep_copyF_grows _ fs src (some dst)
  have hdf : DCFrame fs (deep_copyF (dcFuel fs) fs src (some dst)).1
      fs.nodes.length :=
    (deep_copy_frame (dcFuel fs)).1 fs src (some dst) fs.nodes.length (le_refl _)
  rw [hsnd]
  refine childrenOf_after_insert fs _ dst fs.nodes.length fs.nodes.length ?_ ?_ ?_ ?_
    hclosed ?_
  · show fs.nodes.length ≤ (setChildF (setNextF _ _ _) dst _).nodes.length
    rw [length_setChildF, length_setNextF]
    omega
  · show (nodeAt (setChildF (setNextF (deep_copyF (dcFuel fs) fs src (some dst)).1
      (deep_copyF (dcFuel fs) fs src (some dst)).2
      (nodeAt (deep_copyF (dcFuel fs) fs src (some dst)).1 dst).child) dst
      (some (deep_copyF (dcFuel fs) fs src (some dst)).2)) dst).child =
      some fs.nodes.length
    unfold setChildF
    rw [nodeAt_modify_self _ dst _ (by rw [length_setNextF]; omega)]
    rw [hsnd]
  · show (nodeAt (setChildF (setNextF (deep_copyF (dcFuel fs) fs src (some dst)).1
      (deep_copyF (dcFuel fs) fs src (some dst)).2
      (nodeAt (deep_copyF (dcFuel fs) fs src (some dst)).1 dst).child) dst
      (some (deep_copyF (dcFuel fs) fs src (some dst)).2)) fs.nodes.length).next =
      (nodeAt fs dst).child
    unfold setChildF
    rw [nodeAt_modify_ne _ dst _ fs.nodes.length (by omega)]
    unfold setNextF
    rw [hsnd]
    rw [nodeAt_modify_self _ fs.nodes.length _ (by omega)]
    show (nodeAt (deep_copyF (dcFuel fs) fs src (some dst)).1 dst).child =
      (nodeAt fs dst).child
    rw [hdf.2.2 dst hdlt]
  · intro j hj
    have hjlt : j < fs.nodes.length :=
      chainClosed_mem_lt fs fs.nodes.length (nodeAt fs dst).child j hclosed hj
    show (nodeAt (setChildF (setNextF (deep_copyF (dcFuel fs) fs src (some dst)).1
      (deep_copyF (dcFuel fs) fs src (some dst)).2
      (nodeAt (deep_copyF (dcFuel fs) fs src (some dst)).1 dst).child) dst
      (some (deep_copyF (dcFuel fs) fs src (some dst)).2)) j).next =
      (nodeAt fs j).next
    unfold setChildF
    rw [next_modify_keep _ dst
      (fun n => { n with child := some (deep_copyF (dcFuel fs) fs src (some dst)).2 })
      (fun n => rfl) j]
    unfold setNextF
    rw [hsnd]
    rw [nodeAt_modify_ne _ fs.nodes.length _ j (by omega)]
    rw [hdf.2.2 j hjlt]
  · show fs.nodes.length < (setChildF (setNextF _ _ _) dst _).nodes.length
    rw [length_setChildF, length_setNextF]
    omega

/-- The `cp` insertion in the name-only destination form (the clone is
renamed before being linked in). -/
theorem children_insert_copy_renamed (fs : FS) (src parentDst : Nat) (nm : Str)
    (hdlt : parentDst < fs.nodes.length)
    (hclosed : chainClosed fs fs.nodes.length (nodeAt fs parentDst).child = true) :
    childrenOf (addChild (setNameF (deep_copyF (dcFuel fs) fs src (some parentDst)).1
      (deep_copyF (dcFuel fs) fs src (some parentDst)).2 nm) parentDst
      (deep_copyF (dcFuel fs) fs src (some parentDst)).2) parentDst =
      (deep_copyF (dcFuel fs) fs src (some parentDst)).2 :: childrenOf fs parentDst := by
  have hsnd : (deep_copyF (dcFuel fs) fs src (some parentDst)).2 = fs.nodes.length :=
    deep_copyF_snd _ fs src (some parentDst)
  have hfu : dcFuel fs = 2 * fs.nodes.length + 1 + 1 := by unfold dcFuel; omega
  have hgrow : fs.nodes.length + 1 ≤
      (deep_copyF (dcFuel fs) fs src (some parentDst)).1.nodes.length := by
    rw [hfu]
    exact deep_copyF_grows _ fs src (some parentDst)
  have hdf : DCFrame fs (deep_copyF (dcFuel fs) fs src (some parentDst)).1
      fs.nodes.length :=
    (deep_copy_frame (dcFuel fs)).1 fs src (some parentDst) fs.nodes.length (le_refl _)
  rw [hsnd]
  refine childrenOf_after_insert fs _ parentDst fs.nodes.length fs.nodes.length
    ?_ ?_ ?_ ?_ hclosed ?_
  · show fs.nodes.length ≤ (setChildF (setNextF _ _ _) parentDst _).nodes.length
    rw [length_setChildF, length_setNextF, length_setNameF]
    omega
  · show (nodeAt (setChildF (setNextF
      (setNameF (deep_copyF (dcFuel fs) fs src (some parentDst)).1
        (deep_copyF (dcFuel fs) fs src (some parentDst)).2 nm)
      (deep_copyF (dcFuel fs) fs src (some parentDst)).2
      (nodeAt (setNameF (deep_copyF (dcFuel fs) fs src (some parentDst)).1
        (deep_copyF (dcFuel fs) fs src (some parentDst)).2 nm) parentDst).child)
      parentDst
      (some (deep_copyF (dcFuel fs) fs src (some parentDst)).2)) parentDst).child =
      some fs.nodes.length
    unfold setChildF
    rw [nodeAt_modify_self _ parentDst _
      (by rw [length_setNextF, length_setNameF]; omega)]
    rw [hsnd]
  · show (nodeAt (setChildF (setNextF
      (setNameF (deep_copyF (dcFuel fs) fs src (some parentDst)).1
        (deep_copyF (dcFuel fs) fs src (some parentDst)).2 nm)
      (deep_copyF (dcFuel fs) fs src (some parentDst)).2
      (nodeAt (setNameF (deep_copyF (dcFuel fs) fs src (some parentDst)).1
        (deep_copyF (dcFuel fs) fs src (some parentDst)).2 nm) parentDst).child)
      parentDst
      (some (deep_copyF (dcFuel fs) fs src (some parentDst)).2)) fs.nodes.length).next =
      (nodeAt fs parentDst).child
    unfold setChildF
    rw [nodeAt_modify_ne _ parentDst _ fs.nodes.length (by omega)]
    unfold setNextF
    rw [hsnd]
    rw [nodeAt_modify_self _ fs.nodes.length _ (by rw [length_setNameF]; omega)]
    show (nodeAt (setNameF (deep_copyF (dcFuel fs) fs src (some parentDst)).1
      fs.nodes.length nm) parentDst).child = (nodeAt fs parentDst).child
    unfold setNameF
    rw [child_modify_keep _ fs.nodes.length (fun n => { n with name := nm })
      (fun n => rfl) parentDst]
    rw [hdf.2.2 parentDst hdlt]
  · intro j hj
    have hjlt : j < fs.nodes.length :=
      chainClosed_mem_lt fs fs.nodes.length (nodeAt fs parentDst).child j hclosed hj
    show (nodeAt (setChildF (setNextF
      (setNameF (deep_copyF (dcFuel fs) fs src (some parentDst)).1
        (deep_copyF (dcFuel fs) fs src (some parentDst)).2 nm)
      (deep_copyF (dcFuel fs) fs src (some parentDst)).2
      (nodeAt (setNameF (deep_copyF (dcFuel fs) fs src (some parentDst)).1
        (deep_copyF (dcFuel fs) fs src (some parentDst)).2 nm) parentDst).child)
      parentDst
      (some (deep_copyF (dcFuel fs) fs src (some parentDst)).2)) j).next =
      (nodeAt fs j).next
    unfold setChildF
    rw [next_modify_keep _ parentDst (fun n => { n with child := some (deep_copyF (dcFuel fs) fs src (some parentDst)).2 }) (fun n => rfl) j]
    unfold setNextF
    rw [hsnd]
    rw [nodeAt_modify_ne _ fs.nodes.length _ j (by omega)]
    unfold setNameF
    rw [next_modify_keep _ fs.nodes.length (fun n => { n with name := nm })
      (fun n => rfl) j]
    rw [hdf.2.2 j hjlt]
  · show fs.nodes.length < (setChildF (setNextF _ _ _) parentDst _).nodes.length
    rw [length_setChildF, length_setNextF, length_setNameF]
    omega

/-- The `mv` reattachment (resolved-destination form): starting from the
state `fs1` in which the source has already been unlinked, the source is
prepended to the destination's children. -/
theorem children_reattach (fs1 : FS) (src d m : Nat)
    (hs : src < fs1.nodes.length) (hd : d < fs1.nodes.length)
    (hm : m < fs1.nodes.length)
    (hclosed : chainClosed fs1 m (nodeAt fs1 d).child = true)
    (hnotin : src ∉ chainFrom fs1 m (nodeAt fs1 d).child) :
    childrenOf (setChildF (setNextF (setParentF fs1 src (some d)) src
      (nodeAt (setParentF fs1 src (some d)) d).child) d (some src)) d =
      src :: childrenOf fs1 d := by
  have hX : (nodeAt (setParentF fs1 src (some d)) d).child = (nodeAt fs1 d).child := by
    unfold setParentF
    exact child_modify_keep fs1 src (fun n => { n with parent := some d })
      (fun n => rfl) d
  have hins := childrenOf_after_insert fs1
    (setChildF (setNextF (setParentF fs1 src (some d)) src
      (nodeAt (setParentF fs1 src (some d)) d).child) d (some src)) d src m
    (by rw [length_setChildF, length_setNextF, length_setParentF])
    ?_ ?_ ?_ ?_ ?_
  · rw [hins]
    congr 1
    unfold childrenOf
    exact (chainFrom_fuel_stable fs1 m (nodeAt fs1 d).child hclosed
      fs1.nodes.length (by omega)).symm
  · unfold setChildF
    rw [nodeAt_modify_self _ d _
      (by rw [length_setNextF, length_setParentF]; exact hd)]
  · unfold setChildF
    rw [next_modify_keep _ d (fun n => { n with child := some src }) (fun n => rfl) src]
    unfold setNextF
    rw [nodeAt_modify_self _ src _ (by rw [length_setParentF]; exact hs)]
    show (nodeAt (setParentF fs1 src (some d)) d).child = (nodeAt fs1 d).child
    exact hX
  · intro j hj
    have hjs : j ≠ src := fun he => hnotin (he ▸ hj)
    unfold setChildF
    rw [next_modify_keep _ d (fun n => { n with child := some src }) (fun n => rfl) j]
    unfold setNextF
    rw [nodeAt_modify_ne _ src _ j hjs]
    unfold setParentF
    rw [next_modify_keep _ src (fun n => { n with parent := some d }) (fun n => rfl) j]
  · exact hclosed
  · rw [length_setChildF, length_setNextF, length_setParentF]
    omega

/-- The `mv` reattachment in the name-only destination form (the source
is renamed before being linked in). -/
theorem children_reattach_renamed (fs1 : FS) (src d m : Nat) (nm : Str)
    (hs : src < fs1.nodes.length) (hd : d < fs1.nodes.length)
    (hm : m < fs1.nodes.length)
    (hclosed : chainClosed fs1 m (nodeAt fs1 d).child = true)
    (hnotin : src ∉ chainFrom fs1 m (nodeAt fs1 d).child) :
    childrenOf (setChildF (setNextF (setNameF (setParentF fs1 src (some d)) src nm) src
      (nodeAt (setNameF (setParentF fs1 src (some d)) src nm) d).child) d (some src)) d =
      src :: childrenOf fs1 d := by
  have hX : (nodeAt (setNameF (setParentF fs1 src (some d)) src nm) d).child =
      (nodeAt fs1 d).child := by
    unfold setNameF
    rw [child_modify_keep _ src (fun n => { n with name := nm }) (fun n => rfl) d]
    unfold setParentF
    exact child_modify_keep fs1 src (fun n => { n with parent := some d })
      (fun n => rfl) d
  have hins := childrenOf_after_insert fs1
    (setChildF (setNextF (setNameF (setParentF fs1 src (some d)) src nm) src
      (nodeAt (setNameF (setParentF fs1 src (some d)) src nm) d).child) d (some src))
    d src m
    (by rw [length_setChildF, length_setNextF, length_setNameF, length_setParentF])
    ?_ ?_ ?_ ?_ ?_
  · rw [hins]
    congr 1
    unfold childrenOf
    exact (chainFrom_fuel_stable fs1 m (nodeAt fs1 d).child hclosed
      fs1.nodes.length (by omega)).symm
  · unfold setChildF
    rw [nodeAt_modify_self _ d _
      (by rw [length_setNextF, length_setNameF, length_setParentF]; exact hd)]
  · unfold setChildF
    rw [next_modify_keep _ d (fun n => { n with child := some src }) (fun n => rfl) src]
    unfold setNextF
    rw [nodeAt_modify_self _ src _
      (by rw [length_setNameF, length_setParentF]; exact hs)]
    show (nodeAt (setNameF (setParentF fs1 src (some d)) src nm) d).child =
      (nodeAt fs1 d).child
    exact hX
  · intro j hj
    have hjs : j ≠ src := fun he => hnotin (he ▸ hj)
    unfold setChildF
    rw [next_modify_keep _ d (fun n => { n with child := some src }) (fun n => rfl) j]
    unfold setNextF
    rw [nodeAt_modify_ne _ src _ j hjs]
    unfold setNameF
    rw [next_modify_keep _ src (fun n => { n with name := nm }) (fun n => rfl) j]
    unfold setParentF
    rw [next_modify_keep _ src (fun n => { n with parent := some d }) (fun n => rfl) j]
  · exact hclosed
  · rw [length_setChildF, length_setNextF, length_setNameF, length_setParentF]
    omega

/-- C9: every child insertion — `mkdir`, `touch`, the clone insertion of
`cp` (both destination forms), and the reattachment of `mv` (both
destination forms) — prepends the new node to the parent's children
chain, so the children list (which `ls` reports in chain order) always
shows the most recently inserted sibling first. -/
theorem claim_C9_insertions_prepend (fs : FS) :
    (∀ t nm fs2, t < fs.nodes.length →
      chainClosed fs fs.nodes.length (nodeAt fs t).child = true →
      mkdirCore fs t nm = (fs2, none) →
      childrenOf fs2 t = fs.nodes.length :: childrenOf fs t) ∧
    (∀ t nm fs2, t < fs.nodes.length →
      chainClosed fs fs.nodes.length (nodeAt fs t).child = true →
      touchCore fs t nm = (fs2, none) →
      childrenOf fs2 t = fs.nodes.length :: childrenOf fs t) ∧
    (∀ src dst, dst < fs.nodes.length →
      chainClosed fs fs.nodes.length (nodeAt fs dst).child = true →
      childrenOf (addChild (deep_copyF (dcFuel fs) fs src (some dst)).1 dst
        (deep_copyF (dcFuel fs) fs src (some dst)).2) dst =
        (deep_copyF (dcFuel fs) fs src (some dst)).2 :: childrenOf fs dst) ∧
    (∀ src parentDst nm, parentDst < fs.nodes.length →
      chainClosed fs fs.nodes.length (nodeAt fs parentDst).child = true →
      childrenOf (addChild
        (setNameF (deep_copyF (dcFuel fs) fs src (some parentDst)).1
          (deep_copyF (dcFuel fs) fs src (some parentDst)).2 nm) parentDst
        (deep_copyF (dcFuel fs) fs src (some parentDst)).2) parentDst =
        (deep_copyF (dcFuel fs) fs src (some parentDst)).2 ::
          childrenOf fs parentDst) ∧
    (∀ parent src d m, src < (unlinkChild fs parent src).nodes.length →
      d < (unlinkChild fs parent src).nodes.length →
      m < (unlinkChild fs parent src).nodes.length →
      chainClosed (unlinkChild fs parent src) m
        (nodeAt (unlinkChild fs parent src) d).child = true →
      src ∉ chainFrom (unlinkChild fs parent src) m
        (nodeAt (unlinkChild fs parent src) d).child →
      childrenOf (setChildF
        (setNextF (setParentF (unlinkChild fs parent src) src (some d)) src
          (nodeAt (setParentF (unlinkChild fs parent src) src (some d)) d).child)
        d (some src)) d =
        src :: childrenOf (unlinkChild fs parent src) d) ∧
    (∀ parent src d m nm, src < (unlinkChild fs parent src).nodes.length →
      d < (unlinkChild fs parent src).nodes.length →
      m < (unlinkChild fs parent src).nodes.length →
      chainClosed (unlinkChild fs parent src) m
        (nodeAt (unlinkChild fs parent src) d).child = true →
      src ∉ chainFrom (unlinkChild fs parent src) m
        (nodeAt (unlinkChild fs parent src) d).child →
      childrenOf (setChildF
        (setNextF
          (setNameF (setParentF (unlinkChild fs parent src) src (some d)) src nm) src
          (nodeAt (setNameF (setParentF (unlinkChild fs parent src) src (some d))
            src nm) d).child)
        d (some src)) d =
        src :: childrenOf (unlinkChild fs parent src) d) := by
  refine ⟨?_, ?_, ?_, ?_, ?_, ?_⟩
  · intro t nm fs2 ht hcl h
    unfold mkdirCore at h
    split at h
    · simp at h
    · have h1 := congrArg Prod.fst h
      simp only at h1
      rw [← h1]
      exact children_insert_fresh fs t _ ht hcl
  · intro t nm fs2 ht hcl h
    unfold touchCore at h
    split at h
    · simp at h
    · split at h
      · simp at h
      · have h1 := congrArg Prod.fst h
        simp only at h1
        rw [← h1]
        exact children_insert_fresh fs t _ ht hcl
  · intro src dst hd hcl
    exact children_insert_copy fs src dst hd hcl
  · intro src parentDst nm hd hcl
    exact children_insert_copy_renamed fs src parentDst nm hd hcl
  · intro parent src d m hs hd hm hcl hni
    exact children_reattach (unlinkChild fs parent src) src d m hs hd hm hcl hni
  · intro parent src d m nm hs hd hm hcl hni
    exact children_reattach_renamed (unlinkChild fs parent src) src d m nm
      hs hd hm hcl hni

/-- The state used by the C9 witness: the root with one directory `a`. -/
def fsC9 : FS := execList initFS [Cmd.mkdir [str ("mkdir"), str ("a")]]

/-- Witness for C9: creating a second directory under the root of `fsC9`
prepends it, so the children list becomes the new node followed by the
old one. -/
theorem claim_C9_insertions_prepend_witness :
    childrenOf (mkdirCore fsC9 0 (str ("b"))).1 0 =
      fsC9.nodes.length :: childrenOf fsC9 0 :=
  (claim_C9_insertions_prepend fsC9).1 0 (str ("b")) (mkdirCore fsC9 0 (str ("b"))).1
    (by decide) (by decide) (by decide)

/-! ## C7 and C4: unlinking, subtrees, and path replay -/

theorem chainFrom_nil_of_none (fs : FS) (fuel : Nat) :
    chainFrom fs fuel none = [] := by
  cases fuel <;> rfl

/-- Walking the predecessor search: when `t` occurs in the (duplicate
free, closed) chain but not at its head, `findPrev` finds the unique
predecessor, and bypassing it removes exactly `t` from the chain — in
any state `g` (at least as large an arena) that agrees with `fs` on the
`next` references of all other chain members and sends the predecessor to
the successor of `t`. -/
theorem findPrev_erase (fs : FS) (t : Nat) :
    ∀ fuel c, chainClosed fs fuel c = true → (chainFrom fs fuel c).Nodup →
      t ∈ chainFrom fs fuel c → c ≠ some t →
      ∃ pred, findPrev fs fuel c t = some pred ∧ pred ∈ chainFrom fs fuel c ∧
        ∀ g : FS, fs.nodes.length ≤ g.nodes.length →
          (∀ j, j ∈ chainFrom fs fuel c → j ≠ pred →
            (nodeAt g j).next = (nodeAt fs j).next) →
          (nodeAt g pred).next = (nodeAt fs t).next →
          chainFrom g fuel c = (chainFrom fs fuel c).erase t := by
  intro fuel
  induction fuel with
  | zero => intro c _ _ hmem _; simp [chainFrom] at hmem
  | succ f ih =>
    intro c hcl hnd hmem hct
    cases c with
    | none => simp [chainFrom] at hmem
    | some i =>
      have hit : i ≠ t := fun he => hct (by rw [he])
      simp only [chainFrom, List.mem_cons] at hmem
      rcases hmem with rfl | hmem
      · exact absurd rfl hit
      · simp only [chainClosed, Bool.and_eq_true, decide_eq_true_eq] at hcl
        simp only [chainFrom, List.nodup_cons] at hnd
        cases hnx : (nodeAt fs i).next with
        | none =>
          rw [hnx, chainFrom_nil_of_none] at hmem
          simp at hmem
        | some u =>
          by_cases hut : u = t
          · -- the predecessor is the head itself
            refine ⟨i, ?_, by simp [chainFrom], ?_⟩
            · show findPrev fs (f + 1) (some i) t = some i
              simp only [findPrev]
              rw [if_pos (by rw [hnx, hut])]
            · intro g hglen hothers hpred
              show chainFrom g (f + 1) (some i) = _
              simp only [chainFrom]
              rw [hpred]
              subst hut
              rw [hnx] at hmem
              cases f with
              | zero => simp [chainFrom] at hmem
              | succ f2 =>
                rw [hnx]
                rw [List.erase_cons_tail (by simp [hit])]
                have htail : chainFrom fs (f2 + 1) (some u) =
                    u :: chainFrom fs f2 (nodeAt fs u).next := rfl
                rw [htail, List.erase_cons_head]
                congr 1
                have hcl2 : chainClosed fs (f2 + 1) (some u) = true := by
                  have h2 := hcl.2
                  rw [hnx] at h2
                  exact h2
                have hcl3 : chainClosed fs f2 (nodeAt fs u).next = true := by
                  simp only [chainClosed, Bool.and_eq_true] at hcl2
                  exact hcl2.2
                have hsubmem : ∀ j, j ∈ chainFrom fs f2 (nodeAt fs u).next →
                    (nodeAt g j).next = (nodeAt fs j).next := by
                  intro j hj
                  have hjfull : j ∈ chainFrom fs (f2 + 1 + 1) (some i) := by
                    simp only [chainFrom, List.mem_cons]
                    right
                    rw [hnx, htail]
                    simp [hj]
                  refine hothers j hjfull ?_
                  intro hji
                  apply hnd.1
                  rw [hnx, htail]
                  rw [hji] at hj
                  simp [hj]
                have hclg : chainClosed g f2 (nodeAt fs u).next = true :=
                  chainClosed_congr_mem fs g hglen f2 (nodeAt fs u).next
                    hsubmem hcl3
                rw [chainFrom_fuel_stable g f2 (nodeAt fs u).next hclg (f2 + 1)
                  (by omega)]
                exact chainFrom_congr_mem fs g f2 (nodeAt fs u).next hsubmem
          · -- recurse into the tail
            rw [hnx] at hmem
            have hih := ih (some u) (by rw [hnx] at hcl; exact hcl.2)
              (by rw [hnx] at hnd; exact hnd.2) hmem
              (fun he => hut (by injection he))
            obtain ⟨pred, hfp, hpmem, herase⟩ := hih
            refine ⟨pred, ?_, ?_, ?_⟩
            · show findPrev fs (f + 1) (some i) t = some pred
              simp only [findPrev]
              rw [if_neg (by rw [hnx]; intro he; exact hut (by injection he))]
              rw [hnx]
              exact hfp
            · simp only [chainFrom, List.mem_cons]
              right
              rw [hnx]
              exact hpmem
            · intro g hglen hothers hpred
              show chainFrom g (f + 1) (some i) = _
              have hip : i ≠ pred := by
                intro he
                rw [hnx] at hnd
                exact hnd.1 (he ▸ hpmem)
              simp only [chainFrom]
              rw [hothers i (by simp [chainFrom]) hip, hnx]
              rw [List.erase_cons_tail (by simp [hit])]
              congr 1
              refine herase g hglen ?_ hpred
              intro j hj hjp
              refine hothers j ?_ hjp
              simp only [chainFrom, List.mem_cons]
              right
              rw [hnx]
              exact hj

theorem findPrev_mem (fs : FS) (t : Nat) :
    ∀ fuel c x, findPrev fs fuel c t = some x → x ∈ chainFrom fs fuel c := by
  intro fuel
  induction fuel with
  | zero => intro c x h; simp [findPrev] at h
  | succ f ih =>
    intro c x h
    cases c with
    | none => simp [findPrev] at h
    | some i =>
      simp only [findPrev] at h
      by_cases hn : (nodeAt fs i).next = some t
      · rw [if_pos hn] at h
        cases h
        simp [chainFrom]
      · rw [if_neg hn] at h
        simp only [chainFrom, List.mem_cons]
        right
        exact ih _ x h

/-- Unlinking a present child removes exactly it from the parent's
children list. -/
theorem unlink_childrenOf (fs : FS) (p t : Nat)
    (hp : p < fs.nodes.length)
    (hcl : chainClosed fs fs.nodes.length (nodeAt fs p).child = true)
    (hnd : (childrenOf fs p).Nodup)
    (hmem : t ∈ childrenOf fs p) :
    childrenOf (unlinkChild fs p t) p = (childrenOf fs p).erase t := by
  unfold unlinkChild
  split
  · next hhead =>
    unfold childrenOf
    rw [length_setChildF]
    unfold setChildF
    rw [nodeAt_modify_self _ p _ hp]
    show chainFrom (modifyNode fs p fun n => { n with child := (nodeAt fs t).next })
      fs.nodes.length (nodeAt fs t).next = (chainFrom fs fs.nodes.length
      (nodeAt fs p).child).erase t
    rw [hhead]
    cases hL : fs.nodes.length with
    | zero => omega
    | succ k =>
      have htk : chainFrom fs (k + 1) (some t) =
          t :: chainFrom fs k (nodeAt fs t).next := rfl
      rw [htk, List.erase_cons_head]
      have hcl2 : chainClosed fs k (nodeAt fs t).next = true := by
        rw [hhead, hL] at hcl
        simp only [chainClosed, Bool.and_eq_true] at hcl
        exact hcl.2
      have hnexts : ∀ j, j ∈ chainFrom fs k (nodeAt fs t).next →
          (nodeAt (modifyNode fs p fun n => { n with child := (nodeAt fs t).next }) j).next =
          (nodeAt fs j).next := by
        intro j _
        exact next_modify_keep fs p (fun n => { n with child := (nodeAt fs t).next })
          (fun n => rfl) j
      have hclg : chainClosed
          (modifyNode fs p fun n => { n with child := (nodeAt fs t).next })
          k (nodeAt fs t).next = true := by
        refine chainClosed_congr_mem fs _ (by rw [length_modifyNode]) k _ hnexts hcl2
      rw [chainFrom_fuel_stable _ k (nodeAt fs t).next hclg (k + 1) (by omega)]
      exact chainFrom_congr_mem fs _ k (nodeAt fs t).next hnexts
  · next hhead =>
    have hfp := findPrev_erase fs t fs.nodes.length (nodeAt fs p).child hcl hnd hmem
      (fun he => hhead he)
    obtain ⟨pred, hfpeq, hpmem, herase⟩ := hfp
    rw [hfpeq]
    unfold childrenOf
    rw [length_setNextF]
    have hchildsame : (nodeAt (setNextF fs pred (nodeAt fs t).next) p).child =
        (nodeAt fs p).child := by
      unfold setNextF
      exact child_modify_keep fs pred (fun n => { n with next := (nodeAt fs t).next })
        (fun n => rfl) p
    rw [hchildsame]
    refine herase _ (by rw [length_setNextF]) ?_ ?_
    · intro j _ hjp
      unfold setNextF
      rw [nodeAt_modify_ne _ pred _ j hjp]
    · have hplt : pred < fs.nodes.length :=
        chainClosed_mem_lt fs fs.nodes.length (nodeAt fs p).child pred hcl hpmem
      unfold setNextF
      rw [nodeAt_modify_self _ pred _ hplt]

/-- Unlinking under `p` leaves every other (disjoint, closed) children
list unchanged. -/
theorem unlink_childrenOf_other (fs : FS) (p t j : Nat)
    (hjp : j ≠ p)
    (hdisj : ∀ m, m ∈ childrenOf fs j → m ∈ childrenOf fs p → False) :
    childrenOf (unlinkChild fs p t) j = childrenOf fs j := by
  unfold unlinkChild
  split
  · unfold childrenOf
    rw [length_setChildF]
    have hcs : (nodeAt (setChildF fs p (nodeAt fs t).next) j).child =
        (nodeAt fs j).child := by
      unfold setChildF
      rw [nodeAt_modify_ne _ p _ j hjp]
    rw [hcs]
    refine chainFrom_congr_mem fs _ fs.nodes.length (nodeAt fs j).child ?_
    intro m _
    unfold setChildF
    exact next_modify_keep fs p (fun n => { n with child := (nodeAt fs t).next })
      (fun n => rfl) m
  · next hhead =>
    cases hfp : findPrev fs fs.nodes.length (nodeAt fs p).child t with
    | none => rfl
    | some pred =>
      have hpmem : pred ∈ childrenOf fs p :=
        findPrev_mem fs t fs.nodes.length (nodeAt fs p).child pred hfp
      unfold childrenOf
      rw [length_setNextF]
      have hcs : (nodeAt (setNextF fs pred (nodeAt fs t).next) j).child =
          (nodeAt fs j).child := by
        unfold setNextF
        exact child_modify_keep fs pred (fun n => { n with next := (nodeAt fs t).next })
          (fun n => rfl) j
      rw [hcs]
      refine chainFrom_congr_mem fs _ fs.nodes.length (nodeAt fs j).child ?_
      intro m hm
      have hmp : m ≠ pred := fun he => hdisj m hm (he ▸ hpmem)
      unfold setNextF
      rw [nodeAt_modify_ne _ pred _ m hmp]

/-- Decidable per-node well-formedness: a closed duplicate-free children
chain with pairwise distinct names, children pointing back to the node,
and a parent reference that is allocated and lists the node among its
children. -/
def wfNode (fs : FS) (i : Nat) : Bool :=
  chainClosed fs fs.nodes.length (nodeAt fs i).child &&
  decide ((childrenOf fs i).Nodup) &&
  decide (((childrenOf fs i).map (fun c => (nodeAt fs c).name)).Nodup) &&
  (childrenOf fs i).all (fun c => decide ((nodeAt fs c).parent = some i)) &&
  (match (nodeAt fs i).parent with
   | none => true
   | some pp => decide (pp < fs.nodes.length) && decide (i ∈ childrenOf fs pp))

/-- Decidable well-formedness of a state: nonempty arena, cursor in
range, parentless root, and every allocated node well-formed. -/
def WF (fs : FS) : Bool :=
  decide (0 < fs.nodes.length) && decide (fs.current < fs.nodes.length) &&
  decide ((nodeAt fs 0).parent = none) &&
  (List.range fs.nodes.length).all (fun i => wfNode fs i) &&
  (List.range fs.nodes.length).all (fun i => chainTerm fs fs.nodes.length i)

theorem WF_node (fs : FS) (i : Nat) (h : WF fs = true) (hi : i < fs.nodes.length) :
    wfNode fs i = true := by
  unfold WF at h
  simp only [Bool.and_eq_true, List.all_eq_true] at h
  exact h.1.2 i (List.mem_range.mpr hi)

theorem WF_parts (fs : FS) (h : WF fs = true) :
    0 < fs.nodes.length ∧ fs.current < fs.nodes.length ∧
    (nodeAt fs 0).parent = none := by
  unfold WF at h
  simp only [Bool.and_eq_true, decide_eq_true_eq] at h
  exact ⟨h.1.1.1.1, h.1.1.1.2, h.1.1.2⟩

theorem wfNode_parts (fs : FS) (i : Nat) (h : wfNode fs i = true) :
    chainClosed fs fs.nodes.length (nodeAt fs i).child = true ∧
    (childrenOf fs i).Nodup ∧
    ((childrenOf fs i).map (fun c => (nodeAt fs c).name)).Nodup ∧
    (∀ c, c ∈ childrenOf fs i → (nodeAt fs c).parent = some i) ∧
    (∀ pp, (nodeAt fs i).parent = some pp →
      pp < fs.nodes.length ∧ i ∈ childrenOf fs pp) := by
  unfold wfNode at h
  simp only [Bool.and_eq_true, decide_eq_true_eq, List.all_eq_true] at h
  refine ⟨h.1.1.1.1, h.1.1.1.2, h.1.1.2, fun c hc => ?_, fun pp hpp => ?_⟩
  · have := h.1.2 c hc
    simpa using this
  · have h2 := h.2
    rw [hpp] at h2
    simp only [Bool.and_eq_true, decide_eq_true_eq] at h2
    exact h2

/-- Membership of `i` in the subtree rooted at `t`: some number of
`parent` steps from `i` reaches `t`. -/
def SubT (fs : FS) (t i : Nat) : Prop := ∃ k, parIter fs k i = some t

theorem subT_refl (fs : FS) (t : Nat) : SubT fs t t := ⟨0, rfl⟩

theorem subT_step (fs : FS) (t i pp : Nat) (hp : (nodeAt fs i).parent = some pp)
    (h : SubT fs t pp) : SubT fs t i := by
  obtain ⟨k, hk⟩ := h
  exact ⟨k + 1, by simp [parIter, parentOf, hp, hk]⟩

theorem subT_cases (fs : FS) (t i : Nat) (h : SubT fs t i) :
    i = t ∨ ∃ pp, (nodeAt fs i).parent = some pp ∧ SubT fs t pp := by
  obtain ⟨k, hk⟩ := h
  cases k with
  | zero =>
    left
    simpa [parIter] using hk
  | succ m =>
    right
    simp only [parIter] at hk
    cases hp : parentOf fs i with
    | none => rw [hp] at hk; cases hk
    | some pp =>
      rw [hp] at hk
      exact ⟨pp, hp, ⟨m, hk⟩⟩

theorem find_child_start_lt (fs : FS) (i : Nat) (nm : Str) (x : Nat)
    (h : find_child fs i nm = some x) : i < fs.nodes.length := by
  by_contra hge
  unfold find_child at h
  rw [nodeAt_ge fs i (by omega)] at h
  cases hL : fs.nodes.length with
  | zero => rw [hL] at h; simp [findChildAux] at h
  | succ k => rw [hL] at h; simp [findChildAux] at h

theorem find_child_eq_find? (fs : FS) (i : Nat) (nm : Str) :
    find_child fs i nm =
      (childrenOf fs i).find? (fun c => decide ((nodeAt fs c).name = nm)) :=
  (specChild_eq_find_child fs i nm).symm

theorem find?_congr_mem {α : Type} (p q : α → Bool) :
    ∀ l : List α, (∀ x, x ∈ l → p x = q x) → l.find? p = l.find? q := by
  intro l
  induction l with
  | nil => intro _; rfl
  | cons a l ih =>
    intro h
    simp only [List.find?]
    rw [h a (by simp)]
    cases q a with
    | true => rfl
    | false => exact ih (fun x hx => h x (by simp [hx]))

theorem find?_erase_of_not_pred {α : Type} [DecidableEq α] (p : α → Bool) (t : α)
    (hpt : p t = false) : ∀ l : List α, (l.erase t).find? p = l.find? p := by
  intro l
  induction l with
  | nil => rfl
  | cons a l ih =>
    by_cases hat : a = t
    · subst hat
      rw [List.erase_cons_head]
      simp only [List.find?, hpt]
    · rw [List.erase_cons_tail (by simp [hat])]
      simp only [List.find?]
      cases hpa : p a with
      | true => rfl
      | false => exact ih

/-- The replay lemma: step a successful resolution of `fs` through a
modified state `g` that agrees on parents outside a bad region `B`
closed under parents, where child lookups from outside either survive
unchanged or land in `B` and disappear.  The replayed resolution either
fails or reaches the same node, still outside `B`. -/
theorem replay_resolveSegs (fs g : FS) (B : Nat → Prop)
    (hpar : ∀ i, ¬ B i → (nodeAt g i).parent = (nodeAt fs i).parent)
    (hparB : ∀ i pp, ¬ B i → (nodeAt fs i).parent = some pp → ¬ B pp)
    (hfind : ∀ i nm x, ¬ B i → find_child fs i nm = some x →
      (B x ∧ find_child g i nm = none) ∨ (¬ B x ∧ find_child g i nm = some x)) :
    ∀ L n r, ¬ B n → resolveSegs fs n L = some r →
      resolveSegs g n L = none ∨ (resolveSegs g n L = some r ∧ ¬ B r) := by
  intro L
  induction L with
  | nil =>
    intro n r hn hr
    right
    simp only [resolveSegs] at hr ⊢
    cases hr
    exact ⟨rfl, hn⟩
  | cons part rest ih =>
    intro n r hn hr
    simp only [resolveSegs] at hr ⊢
    by_cases h1 : part = [] ∨ part = str (".")
    · rw [if_pos h1] at hr ⊢
      exact ih n r hn hr
    · rw [if_neg h1] at hr ⊢
      by_cases h2 : part = str ("..")
      · rw [if_pos h2] at hr ⊢
        rw [hpar n hn]
        cases hp : (nodeAt fs n).parent with
        | none =>
          rw [hp] at hr
          exact ih n r hn hr
        | some pp =>
          rw [hp] at hr
          exact ih pp r (hparB n pp hn hp) hr
      · rw [if_neg h2] at hr ⊢
        cases hf : find_child fs n part with
        | none => rw [hf] at hr; cases hr
        | some x =>
          rw [hf] at hr
          rcases hfind n part x hn hf with ⟨_, hg⟩ | ⟨hBx, hg⟩
          · rw [hg]
            exact Or.inl rfl
          · rw [hg]
            exact ih x r hBx hr

theorem name_unlinkChild (fs : FS) (p t i : Nat) :
    (nodeAt (unlinkChild fs p t) i).name = (nodeAt fs i).name :=
  (keep3_unlinkChild fs p t i).1

theorem subT_of_child (fs : FS) (t x i : Nat)
    (hp : (nodeAt fs x).parent = some i) (hS : SubT fs t x) :
    x = t ∨ SubT fs t i := by
  rcases subT_cases fs t x hS with h | ⟨pp, hpp, hSpp⟩
  · exact Or.inl h
  · right
    rw [hp] at hpp
    cases hpp
    exact hSpp

theorem nodup_not_mem_erase {α : Type} [DecidableEq α] (t : α) :
    ∀ l : List α, l.Nodup → t ∉ l.erase t := by
  intro l
  induction l with
  | nil => intro _ h; cases h
  | cons a l ih =>
    intro hnd hmem
    by_cases hat : a = t
    · subst hat
      rw [List.erase_cons_head] at hmem
      exact (List.nodup_cons.mp hnd).1 hmem
    · rw [List.erase_cons_tail (by simp [hat])] at hmem
      rcases List.mem_cons.mp hmem with h | hmem2
      · exact hat h.symm
      · exact ih (List.nodup_cons.mp hnd).2 hmem2

/-- In a well-formed state, looking up a child from a node outside the
subtree of `t` after `t` is unlinked either loses exactly the hits that
were inside the subtree (only `t` itself can be hit) or returns the same
node, still outside. -/
theorem find_child_unlink (fs : FS) (t p : Nat)
    (hwf : WF fs = true)
    (ht : t < fs.nodes.length)
    (hp : (nodeAt fs t).parent = some p)
    (i : Nat) (nm : Str) (x : Nat)
    (hi : ¬ SubT fs t i)
    (hf : find_child fs i nm = some x) :
    (SubT fs t x ∧ find_child (unlinkChild fs p t) i nm = none) ∨
    (¬ SubT fs t x ∧ find_child (unlinkChild fs p t) i nm = some x) := by
  have hilt : i < fs.nodes.length := find_child_start_lt fs i nm x hf
  obtain ⟨hcli, hndi, hnmi, hcpi, _⟩ := wfNode_parts fs i (WF_node fs i hwf hilt)
  obtain ⟨_, _, _, _, hpt⟩ := wfNode_parts fs t (WF_node fs t hwf ht)
  obtain ⟨hplt, htmem⟩ := hpt p hp
  obtain ⟨hclp, hndp, hnmp, hcpp, _⟩ := wfNode_parts fs p (WF_node fs p hwf hplt)
  have hfq : (childrenOf fs i).find?
      (fun c => decide ((nodeAt fs c).name = nm)) = some x := by
    rw [← find_child_eq_find?]
    exact hf
  have hxmem : x ∈ childrenOf fs i := List.mem_of_find?_eq_some hfq
  have hxname : (nodeAt fs x).name = nm := by
    have := List.find?_some hfq
    simpa using this
  have hxpar : (nodeAt fs x).parent = some i := hcpi x hxmem
  have hgfind : ∀ j, find_child (unlinkChild fs p t) j nm =
      (childrenOf (unlinkChild fs p t) j).find?
        (fun c => decide ((nodeAt fs c).name = nm)) := by
    intro j
    rw [find_child_eq_find?]
    refine find?_congr_mem _ _ _ (fun c _ => ?_)
    simp only [name_unlinkChild]
  by_cases hSx : SubT fs t x
  · left
    refine ⟨hSx, ?_⟩
    have hxt : x = t := by
      rcases subT_of_child fs t x i hxpar hSx with h | h
      · exact h
      · exact absurd h hi
    have hip : i = p := by
      rw [hxt, hp] at hxpar
      cases hxpar
      rfl
    rw [hgfind, hip, unlink_childrenOf fs p t hplt hclp hndp htmem]
    apply List.find?_eq_none.mpr
    intro y hy
    have hymem : y ∈ childrenOf fs p := List.mem_of_mem_erase hy
    have hyne : y ≠ t := by
      intro h
      subst h
      exact nodup_not_mem_erase y _ hndp hy
    show decide ((nodeAt fs y).name = nm) = true → False
    rw [decide_eq_true_eq]
    intro hynm
    apply hyne
    refine List.inj_on_of_nodup_map hnmp hymem ?_ ?_
    · rw [← hip, ← hxt]
      exact hxmem
    · rw [hynm, ← hxname, hxt]
  · right
    refine ⟨hSx, ?_⟩
    have hxt : x ≠ t := by
      intro h
      exact hSx (h ▸ subT_refl fs t)
    rw [hgfind]
    by_cases hip : i = p
    · have hpredt : (fun c => decide ((nodeAt fs c).name = nm)) t = false := by
        show decide ((nodeAt fs t).name = nm) = false
        rw [decide_eq_false_iff_not]
        intro htnm
        apply hxt
        refine List.inj_on_of_nodup_map hnmp ?_ htmem ?_
        · rw [← hip]
          exact hxmem
        · rw [htnm, hxname]
      rw [hip] at hfq
      rw [hip, unlink_childrenOf fs p t hplt hclp hndp htmem,
        find?_erase_of_not_pred _ t hpredt]
      exact hfq
    · have hdisj : ∀ m, m ∈ childrenOf fs i → m ∈ childrenOf fs p → False := by
        intro m hmi hmp
        have h1 := hcpi m hmi
        have h2 := hcpp m hmp
        rw [h1] at h2
        cases h2
        exact hip rfl
      rw [unlink_childrenOf_other fs p t i hip hdisj]
      exact hfq

theorem get_node_by_path_eq1 (fs : FS) (path rest : Str) (h : path = '/' :: rest) :
    get_node_by_path fs path =
      if path = str ("/") then some 0
      else resolveSegs fs 0 (splitOnSlash (stripSlash path)) := by
  subst h
  rfl

theorem get_node_by_path_eq2 (fs : FS) (path : Str) (h : ∀ rest, path ≠ '/' :: rest) :
    get_node_by_path fs path = resolveSegs fs fs.current (splitOnSlash path) := by
  unfold get_node_by_path
  split
  · next tl => exact absurd rfl (h tl)
  · rfl

theorem root_not_subT (fs : FS) (t p : Nat) (hwf : WF fs = true)
    (hp : (nodeAt fs t).parent = some p) : ¬ SubT fs t 0 := by
  intro h
  rcases subT_cases fs t 0 h with h0 | ⟨pp, hpp, _⟩
  · rw [← h0, (WF_parts fs hwf).2.2] at hp
    cases hp
  · rw [(WF_parts fs hwf).2.2] at hpp
    cases hpp

theorem wf_parents_lt (fs : FS) (hwf : WF fs = true) :
    ∀ i pp, parentOf fs i = some pp → pp < fs.nodes.length := by
  intro i pp hpp
  by_cases hilt : i < fs.nodes.length
  · exact ((wfNode_parts fs i (WF_node fs i hwf hilt)).2.2.2.2 pp hpp).1
  · unfold parentOf at hpp
    rw [nodeAt_ge fs i (by omega)] at hpp
    rw [show (default : Node).parent = none from rfl] at hpp
    cases hpp

/-- Replaying any resolution that starts outside the unlinked subtree:
it fails, or lands on the same node, still outside. -/
theorem rm_path_replay (fs : FS) (t p : Nat)
    (hwf : WF fs = true)
    (ht : t < fs.nodes.length)
    (hp : (nodeAt fs t).parent = some p)
    (hcur : ¬ SubT fs t fs.current) :
    ∀ q r, get_node_by_path fs q = some r → SubT fs t r →
      get_node_by_path (unlinkChild fs p t) q = none := by
  have hrep := replay_resolveSegs fs (unlinkChild fs p t) (SubT fs t)
    (fun i _ => (keep3_unlinkChild fs p t i).2.2)
    (fun i pp hi hpp hSpp => hi (subT_step fs t i pp hpp hSpp))
    (fun i nm x hi hf => find_child_unlink fs t p hwf ht hp i nm x hi hf)
  intro q r hq hS
  cases q with
  | nil =>
    have h2 : ∀ rest, ([] : Str) ≠ '/' :: rest := fun rest h => by cases h
    rw [get_node_by_path_eq2 fs [] h2] at hq
    rw [get_node_by_path_eq2 (unlinkChild fs p t) [] h2, current_unlinkChild]
    rcases hrep _ _ _ hcur hq with h | ⟨_, hout⟩
    · exact h
    · exact absurd hS hout
  | cons c cs =>
    by_cases hc : c = '/'
    · subst hc
      rw [get_node_by_path_eq1 fs _ cs rfl] at hq
      rw [get_node_by_path_eq1 (unlinkChild fs p t) _ cs rfl]
      by_cases hroot : ('/' :: cs : Str) = str ("/")
      · rw [if_pos hroot] at hq
        cases hq
        exact absurd hS (root_not_subT fs t p hwf hp)
      · rw [if_neg hroot] at hq
        rw [if_neg hroot]
        rcases hrep _ _ _ (root_not_subT fs t p hwf hp) hq with h | ⟨_, hout⟩
        · exact h
        · exact absurd hS hout
    · have h2 : ∀ rest, (c :: cs : Str) ≠ '/' :: rest := by
        intro rest h
        injection h with h1 _
        exact hc h1
      rw [get_node_by_path_eq2 fs _ h2] at hq
      rw [get_node_by_path_eq2 (unlinkChild fs p t) _ h2, current_unlinkChild]
      rcases hrep _ _ _ hcur hq with h | ⟨_, hout⟩
      · exact h
      · exact absurd hS hout

/-- The state for the C7 counterexample and witness: `root` with child
`a` (index 1) and grandchild `a/b` (index 2). -/
def fsC7 : FS :=
  execList initFS
    [Cmd.mkdir [str ("mkdir"), str ("a")],
     Cmd.mkdir [str ("mkdir"), str ("/a"), str ("b")]]

/-- The same tree with the cursor moved inside `a`, to `a/b`. -/
def fsC7c : FS := execList fsC7 [Cmd.cd [str ("cd"), str ("/a/b")]]

/-- Counterexample to C7 as stated: with the cursor parked inside the
removed subtree (`cd /a/b` then `rm /a`), the relative path `.` formerly
reached descendant `b` of the removed node `a`, the `rm` succeeds, and
yet `.` still resolves afterwards (the cursor is left dangling in the
unlinked subtree), so not every path that formerly reached a descendant
fails with NotFound. -/
theorem claim_C7_counterexample :
    get_node_by_path fsC7c (str (".")) = some 2 ∧
    parIter fsC7c 1 2 = some 1 ∧
    (rm_command fsC7c [str ("rm"), str ("/a")]).2 = none ∧
    get_node_by_path (rm_command fsC7c [str ("rm"), str ("/a")]).1
      (str (".")) = some 2 := by decide

/-- C7 amended: for a well-formed state and a path resolving to a
non-root node, provided the cursor is not inside the target's subtree,
a successful rm unlinks the target from its parent, and afterwards every
path that formerly resolved to the removed node or to any of its
descendants (by parent-chain) no longer resolves.  Without the cursor
condition the claim fails: rm never repositions the cursor, and a cursor
left inside the removed subtree keeps relative paths resolving there. -/
theorem claim_C7_rm_unreachable (fs : FS) (P : Str) (t p : Nat)
    (hwf : WF fs = true)
    (hres : get_node_by_path fs P = some t)
    (hp : (nodeAt fs t).parent = some p)
    (hcur : ¬ SubT fs t fs.current) :
    rm_command fs [str ("rm"), P] = (unlinkChild fs p t, none) ∧
    ∀ q r, get_node_by_path fs q = some r → SubT fs t r →
      get_node_by_path (unlinkChild fs p t) q = none := by
  have ht : t < fs.nodes.length := by
    obtain ⟨h0, hc, _⟩ := WF_parts fs hwf
    exact get_node_by_path_lt fs P t h0 hc (wf_parents_lt fs hwf) hres
  constructor
  · have h1 : rm_command fs [str ("rm"), P] =
        (match get_node_by_path fs P with
          | none => (fs, some Err.notFound)
          | some t =>
            match (nodeAt fs t).parent with
            | none => (fs, some Err.rootProtected)
            | some p => (unlinkChild fs p t, none)) := rfl
    rw [h1]
    simp only [hres, hp]
  · exact rm_path_replay fs t p hwf ht hp hcur

/-- Witness: in the two-level tree with the cursor at root, removing
`/a` makes the former descendant path `/a/b` unresolvable. -/
theorem claim_C7_rm_unreachable_witness :
    get_node_by_path (unlinkChild fsC7 0 1) (str ("/a/b")) = none := by
  have h := claim_C7_rm_unreachable fsC7 (str ("/a")) 1 0 (by decide) (by decide)
    (by decide)
    (by
      intro hS
      obtain ⟨k, hk⟩ := hS
      cases k with
      | zero => exact absurd hk (by decide)
      | succ m =>
        rw [show parIter fsC7 (m + 1) fsC7.current = none from rfl] at hk
        cases hk)
  exact h.2 (str ("/a/b")) 2 (by decide) ⟨1, by decide⟩

theorem child_unlinkChild_ne (fs : FS) (p t j : Nat) (hjp : j ≠ p) :
    (nodeAt (unlinkChild fs p t) j).child = (nodeAt fs j).child := by
  unfold unlinkChild
  split
  · unfold setChildF
    rw [nodeAt_modify_ne _ p _ j hjp]
  · split
    · unfold setNextF
      exact child_modify_keep fs _ (fun n => { n with next := (nodeAt fs t).next })
        (fun n => rfl) j
    · rfl

theorem next_unlinkChild_outside (fs : FS) (p t m : Nat)
    (hm : m ∉ childrenOf fs p) :
    (nodeAt (unlinkChild fs p t) m).next = (nodeAt fs m).next := by
  unfold unlinkChild
  split
  · unfold setChildF
    exact next_modify_keep fs p (fun n => { n with child := (nodeAt fs t).next })
      (fun n => rfl) m
  · cases hfp : findPrev fs fs.nodes.length (nodeAt fs p).child t with
    | none => rfl
    | some pred =>
      have hpmem : pred ∈ childrenOf fs p :=
        findPrev_mem fs t fs.nodes.length (nodeAt fs p).child pred hfp
      unfold setNextF
      rw [nodeAt_modify_ne _ pred _ m (fun h => hm (h ▸ hpmem))]

